import Mathlib

/-!
Verification development for the `reder_info` ingestion engine.

Shallow embedding of the storage pipeline, the deduplication index, the
content tokenizer and the priority dispatcher, translated from the Python
source under `src/`.  Pure string processing is embedded over `List Char`;
the relational store (PostgreSQL tables `hashs`, `paths`, `contents`,
`words`, `words_paths`, `titles_content`) is embedded as explicit lists of
rows with fresh-id counters, and the per-file workflow
`StoragePipeline.store_file_complete` as a pure state-passing function.

Modelling boundaries (stated once here):
* Python `re` is embedded by a fuel-bounded backtracking matcher with the
  CPython semantics relevant to the claims: leftmost match, alternatives
  tried left to right, greedy quantifiers, word boundaries.  Character
  classes `\w`, `\d`, `isalnum` are modelled over their ASCII fragment.
* `pickle.dumps`/`zlib.compress` are an opaque lossless codec in the source;
  they are modelled by an executable invertible encoding into `List Nat`
  (the spec declares any deterministic serialization acceptable as long as
  reads and writes use the same codec).
* Wall-clock fields (`content_date`, `date_creation`, `file_date`) and the
  in-memory word cache (a transparent memo of the `words` table) are elided;
  no claim mentions them.
* Python `set` / `Counter` iteration order is modelled as first-occurrence
  order; no claim observes the difference.
-/

namespace RederInfo

/-! ## Character predicates (ASCII fragments of the Python ones) -/

/-- Python regex `\s`: space, TAB, LF, VT, FF, CR. -/
def isPyWS (c : Char) : Bool :=
  c = ' ' || c = '\t' || c = '\n' || c = '\r' || c.toNat = 11 || c.toNat = 12

/-- Python `str.isspace` (ASCII fragment plus NEL). -/
def pyCharIsSpace (c : Char) : Bool :=
  c = ' ' || (9 ≤ c.toNat && c.toNat ≤ 13) || (28 ≤ c.toNat && c.toNat ≤ 31) ||
    c.toNat = 133

def asciiUpper (c : Char) : Bool := 'A' ≤ c && c ≤ 'Z'

def asciiLower (c : Char) : Bool := 'a' ≤ c && c ≤ 'z'

def asciiAlpha (c : Char) : Bool := asciiUpper c || asciiLower c

def asciiDigit (c : Char) : Bool := '0' ≤ c && c ≤ '9'

def asciiAlnum (c : Char) : Bool := asciiAlpha c || asciiDigit c

/-- Python regex `\w` (ASCII fragment): alphanumeric or underscore. -/
def wordCharP (c : Char) : Bool := asciiAlnum c || c = '_'

/-- Python lowercasing, ASCII fragment (`Char.toLower` maps A–Z to a–z). -/
def pyLowerL (l : List Char) : List Char := l.map Char.toLower

def pyLower (s : String) : String := String.mk (pyLowerL s.data)

/-- `ValidationProcessor.sanitize_text`: drop NUL, then keep a character iff
its code point is ≥ 32 or one of TAB/LF/CR (9, 10, 13). -/
def sanitizeKeep (c : Char) : Bool :=
  32 ≤ c.toNat || c.toNat = 9 || c.toNat = 10 || c.toNat = 13

def sanitize_text (s : String) : String :=
  String.mk ((s.data.filter (fun c => c.toNat ≠ 0)).filter sanitizeKeep)

/-- Python `str.strip()`: remove leading and trailing whitespace. -/
def pyStrip (s : String) : String :=
  String.mk (((s.data.dropWhile pyCharIsSpace).reverse.dropWhile pyCharIsSpace).reverse)

/-- Python slice `text[a:b]` (for `a ≤ b`; clamps at the end). -/
def slice (s : List Char) (a b : Nat) : List Char := (s.drop a).take (b - a)

/-! ## A fuel-bounded backtracking regex matcher (CPython `re` semantics)

`Re` is the abstract syntax of the fragment of Python regular expressions
used by `ContentProcessor`: character predicates (classes), concatenation,
prioritised alternation, greedy Kleene star and word boundary `\b`.
`reMatch` is the continuation-passing backtracking matcher; it returns the
first successful overall match in CPython's backtracking priority order
(alternatives left to right, greedy repetition preferring more iterations).
All starred subpatterns in the source consume at least one character, which
the matcher enforces by the `i < j` progress guard. -/

inductive Re where
  | eps : Re
  | pred : (Char → Bool) → Re
  | seq : Re → Re → Re
  | alt : Re → Re → Re
  | star : Re → Re
  | wb : Re

/-- `\b`: positions where word-char-ness changes between neighbours. -/
def atWordBoundary (s : List Char) (i : Nat) : Bool :=
  let before := if i = 0 then false else ((s.get? (i - 1)).map wordCharP).getD false
  let after := ((s.get? i).map wordCharP).getD false
  before != after

/-- Backtracking matcher: first success of continuation `k` over all ways
`re` can match starting at `i`, in priority order.  Fuel bounds the
recursion depth; `reFuel` below always suffices on the inputs used. -/
def reMatch (s : List Char) : Nat → Re → Nat → (Nat → Option Nat) → Option Nat
  | 0, _, _, _ => none
  | f + 1, re, i, k =>
    match re with
    | .eps => k i
    | .pred p =>
      match s.get? i with
      | some c => if p c then k (i + 1) else none
      | none => none
    | .seq a b => reMatch s f a i (fun j => reMatch s f b j k)
    | .alt a b =>
      match reMatch s f a i k with
      | some r => some r
      | none => reMatch s f b i k
    | .star a =>
      match reMatch s f a i
          (fun j => if i < j then reMatch s f (.star a) j k else none) with
      | some r => some r
      | none => k i
    | .wb => if atWordBoundary s i then k i else none

def reSize : Re → Nat
  | .eps => 1
  | .pred _ => 1
  | .wb => 1
  | .seq a b => reSize a + reSize b + 1
  | .alt a b => reSize a + reSize b + 1
  | .star a => reSize a + 1

/-- Ample fuel: recursion depth is bounded by pattern size times positions. -/
def reFuel (re : Re) (s : List Char) : Nat := (reSize re + 2) * (s.length + 2)

/-- End position of the match CPython's engine finds at position `i`. -/
def re_match_end (re : Re) (s : List Char) (i : Nat) : Option Nat :=
  reMatch s (reFuel re s) re i some

/-- `re.finditer`: leftmost non-overlapping matches, scanning left to right;
after a match the scan resumes at its end (one past it for empty matches). -/
def finditer_go (re : Re) (s : List Char) : Nat → Nat → List (Nat × Nat)
  | 0, _ => []
  | f + 1, i =>
    if s.length < i then []
    else
      match re_match_end re s i with
      | some j => (i, j) :: finditer_go re s f (if i < j then j else j + 1)
      | none => finditer_go re s f (i + 1)

def finditer (re : Re) (s : List Char) : List (Nat × Nat) :=
  finditer_go re s (s.length + 2) 0

/-! ### Regex combinators used to transcribe the source patterns -/

def reChar (a : Char) : Re := .pred (fun c => c = a)

/-- Case-insensitive single character (`a` given lowercase). -/
def reCI (a : Char) : Re := .pred (fun c => c.toLower = a)

def reStr (w : String) : Re := w.data.foldr (fun c r => .seq (reChar c) r) .eps

def reStrCI (w : String) : Re := w.data.foldr (fun c r => .seq (reCI c) r) .eps

def reSeqs (l : List Re) : Re := l.foldr .seq .eps

def reFail : Re := .pred (fun _ => false)

/-- Prioritised alternation: first element preferred. -/
def reAlts (l : List Re) : Re :=
  match l with
  | [] => reFail
  | [a] => a
  | a :: rest => .alt a (reAlts rest)

def rePlus (a : Re) : Re := .seq a (.star a)

def reOpt (a : Re) : Re := .alt a .eps

/-- `a{n}` -/
def reRepExact (a : Re) : Nat → Re
  | 0 => .eps
  | n + 1 => .seq a (reRepExact a n)

/-- `a{0,n}`, greedy. -/
def reRepAtMost (a : Re) : Nat → Re
  | 0 => .eps
  | n + 1 => .alt (.seq a (reRepAtMost a n)) .eps

/-- `a{m,n}`, greedy. -/
def reRepRange (a : Re) (m n : Nat) : Re :=
  .seq (reRepExact a m) (reRepAtMost a (n - m))

/-- `a{m,}`, greedy. -/
def reRepAtLeast (a : Re) (m : Nat) : Re := .seq (reRepExact a m) (.star a)

/-! ### The six entity patterns and the word pattern of `ContentProcessor` -/

/-- Class `[^\s<>"{}|\\` ++ "`" ++ `\[\]]` of the URL pattern (code points
34 `"`, 123 `{`, 125 `}`, 92 backslash, 96 backtick). -/
def urlBody1 (c : Char) : Bool :=
  !(isPyWS c || c = '<' || c = '>' || c.toNat = 34 || c.toNat = 123 ||
    c.toNat = 125 || c = '|' || c.toNat = 92 || c.toNat = 96 ||
    c = '[' || c = ']')

/-- Same class with `^` also excluded (the URL-path and no-protocol classes). -/
def urlBody2 (c : Char) : Bool :=
  !(isPyWS c || c = '<' || c = '>' || c.toNat = 34 || c.toNat = 123 ||
    c.toNat = 125 || c = '|' || c.toNat = 92 || c.toNat = 94 ||
    c.toNat = 96 || c = '[' || c = ']')

def hexColonP (c : Char) : Bool :=
  asciiDigit c || ('a' ≤ c && c ≤ 'f') || ('A' ≤ c && c ≤ 'F') || c = ':'

/-- `url`: `\b(?:https?|ftp|ftps|file)://(?:[body1]+|\[[0-9a-fA-F:]+\])(?:/[body2]*)?` -/
def url_re : Re :=
  reSeqs [
    .wb,
    reAlts [.seq (reStrCI "http") (reOpt (reCI 's')),
            reStrCI "ftp", reStrCI "ftps", reStrCI "file"],
    reStr "://",
    reAlts [rePlus (.pred urlBody1),
            reSeqs [reChar '[', rePlus (.pred hexColonP), reChar ']']],
    reOpt (.seq (reChar '/') (.star (.pred urlBody2)))]

def emailMidP (c : Char) : Bool :=
  asciiAlnum c || c = '.' || c = '_' || c = '%' || c = '+' || c = '-'

def alnumDashP (c : Char) : Bool := asciiAlnum c || c = '-'

/-- `(?:[a-zA-Z0-9-]*[a-zA-Z0-9])?` -/
def labelTail : Re := reOpt (.seq (.star (.pred alnumDashP)) (.pred asciiAlnum))

/-- `email`: `[a-zA-Z0-9](?:[a-zA-Z0-9._%+-]*[a-zA-Z0-9])?@[a-zA-Z0-9]`
`(?:[a-zA-Z0-9-]*[a-zA-Z0-9])?(?:\.[a-zA-Z0-9](?:[a-zA-Z0-9-]*[a-zA-Z0-9])?)+` -/
def email_re : Re :=
  reSeqs [
    .pred asciiAlnum,
    reOpt (.seq (.star (.pred emailMidP)) (.pred asciiAlnum)),
    reChar '@',
    .pred asciiAlnum, labelTail,
    rePlus (reSeqs [reChar '.', .pred asciiAlnum, labelTail])]

/-- `[/\-\.]` -/
def sep1P (c : Char) : Bool := c = '/' || c = '-' || c = '.'

def monthAbbr : Re :=
  reAlts [reStrCI "jan", reStrCI "feb", reStrCI "mar", reStrCI "apr",
          reStrCI "may", reStrCI "jun", reStrCI "jul", reStrCI "aug",
          reStrCI "sep", reStrCI "oct", reStrCI "nov", reStrCI "dec"]

def monthFull : Re :=
  reAlts [reStrCI "january", reStrCI "february", reStrCI "march",
          reStrCI "april", reStrCI "may", reStrCI "june", reStrCI "july",
          reStrCI "august", reStrCI "september", reStrCI "october",
          reStrCI "november", reStrCI "december"]

def reWS : Re := rePlus (.pred isPyWS)

def reDigit : Re := .pred asciiDigit

/-- `\d{1,2}[/\-\.]\d{1,2}[/\-\.]\d{2,4}` -/
def dateA1 : Re :=
  reSeqs [reRepRange reDigit 1 2, .pred sep1P, reRepRange reDigit 1 2,
          .pred sep1P, reRepRange reDigit 2 4]

/-- `\d{2,4}[/\-\.]\d{1,2}[/\-\.]\d{1,2}` -/
def dateA2 : Re :=
  reSeqs [reRepRange reDigit 2 4, .pred sep1P, reRepRange reDigit 1 2,
          .pred sep1P, reRepRange reDigit 1 2]

/-- `\d{4}[/\-\.]\d{1,2}[/\-\.]\d{1,2}` -/
def dateA3 : Re :=
  reSeqs [reRepExact reDigit 4, .pred sep1P, reRepRange reDigit 1 2,
          .pred sep1P, reRepRange reDigit 1 2]

/-- `\d{1,2}(?:st|nd|rd|th)?\s+(?:Jan|…|Dec)[a-z]*\s+\d{4}` (IGNORECASE) -/
def dateA4 : Re :=
  reSeqs [reRepRange reDigit 1 2,
          reOpt (reAlts [reStrCI "st", reStrCI "nd", reStrCI "rd", reStrCI "th"]),
          reWS, monthAbbr, .star (.pred asciiAlpha), reWS, reRepExact reDigit 4]

/-- `(?:January|…|December)\s+\d{1,2},?\s+\d{4}` -/
def dateA5 : Re :=
  reSeqs [monthFull, reWS, reRepRange reDigit 1 2, reOpt (reChar ','),
          reWS, reRepExact reDigit 4]

/-- `\d{1,2}\s+(?:January|…|December)\s+\d{4}` -/
def dateA6 : Re :=
  reSeqs [reRepRange reDigit 1 2, reWS, monthFull, reWS, reRepExact reDigit 4]

/-- `\d{4}-\d{2}-\d{2}(?:T\d{2}:\d{2}:\d{2}(?:\.\d+)?(?:Z|[+-]\d{2}:\d{2})?)?` -/
def dateA7 : Re :=
  reSeqs [reRepExact reDigit 4, reChar '-', reRepExact reDigit 2, reChar '-',
          reRepExact reDigit 2,
          reOpt (reSeqs [reCI 't', reRepExact reDigit 2, reChar ':',
                         reRepExact reDigit 2, reChar ':', reRepExact reDigit 2,
                         reOpt (.seq (reChar '.') (rePlus reDigit)),
                         reOpt (reAlts [reCI 'z',
                                        reSeqs [.pred (fun c => c = '+' || c = '-'),
                                                reRepExact reDigit 2, reChar ':',
                                                reRepExact reDigit 2]])])]

/-- `\d{4}/\d{2}/\d{2}(?:\s+\d{2}:\d{2}:\d{2})?` -/
def dateA8 : Re :=
  reSeqs [reRepExact reDigit 4, reChar '/', reRepExact reDigit 2, reChar '/',
          reRepExact reDigit 2,
          reOpt (reSeqs [reWS, reRepExact reDigit 2, reChar ':',
                         reRepExact reDigit 2, reChar ':', reRepExact reDigit 2])]

/-- `date`: `\b(?:A1|A2|A3|A4|A5|A6|A7|A8)\b` with the alternatives above. -/
def date_re : Re :=
  reSeqs [.wb,
          reAlts [dateA1, dateA2, dateA3, dateA4, dateA5, dateA6, dateA7, dateA8],
          .wb]

/-- `date_iso`: `\b(\d{4})S(\d{1,2})S(\d{1,2})\b` where `S` is the class
dash, slash, dot (written `[-` `/.]` in the source). -/
def date_iso_re : Re :=
  reSeqs [.wb, reRepExact reDigit 4, .pred sep1P, reRepRange reDigit 1 2,
          .pred sep1P, reRepRange reDigit 1 2, .wb]

/-- `(?:[a-zA-Z0-9-]{0,61}[a-zA-Z0-9])?` -/
def label61 : Re :=
  reOpt (.seq (reRepAtMost (.pred alnumDashP) 61) (.pred asciiAlnum))

/-- `url_no_protocol`: `\b(?:www\.)?[a-zA-Z0-9](?:[a-zA-Z0-9-]{0,61}[a-zA-Z0-9])?`
`(?:\.[a-zA-Z0-9](?:[a-zA-Z0-9-]{0,61}[a-zA-Z0-9])?)+(?::\d+)?(?:/[body2]*)?` -/
def url_no_protocol_re : Re :=
  reSeqs [
    .wb,
    reOpt (.seq (reStrCI "www") (reChar '.')),
    .pred asciiAlnum, label61,
    rePlus (reSeqs [reChar '.', .pred asciiAlnum, label61]),
    reOpt (.seq (reChar ':') (rePlus reDigit)),
    reOpt (.seq (reChar '/') (.star (.pred urlBody2)))]

/-- `domain`: `\b(?:[a-zA-Z0-9](?:[a-zA-Z0-9-]{0,61}[a-zA-Z0-9])?\.)+[a-zA-Z]{2,}\b` -/
def domain_re : Re :=
  reSeqs [.wb,
          rePlus (reSeqs [.pred asciiAlnum, label61, reChar '.']),
          reRepAtLeast (.pred asciiAlpha) 2, .wb]

/-- `self.pattern_order = ['url', 'email', 'date', 'date_iso',`
`'url_no_protocol', 'domain']` -/
def pattern_order : List Re :=
  [url_re, email_re, date_re, date_iso_re, url_no_protocol_re, domain_re]

/-- `word_pattern`: `\b[\w'-]+\b` (apostrophe is code point 39). -/
def word_pattern_re : Re :=
  reSeqs [.wb, rePlus (.pred (fun c => wordCharP c || c.toNat = 39 || c = '-')), .wb]

/-! ## `ContentProcessor` tokenization -/

/-- A token `(word, punct_before, punct_after, spacing)`. -/
abbrev Tok := String × String × String × String

/-- An entity record `{start, end, text}` (`type` is never read downstream). -/
structure Ent where
  start : Nat
  stop : Nat
  text : List Char
deriving DecidableEq

/-- Stable insertion keeping earlier-collected entities first on equal starts
(Python `entities.sort(key=lambda x: x['start'])` is stable). -/
def insertEnt (e : Ent) : List Ent → List Ent
  | [] => [e]
  | x :: xs => if e.start < x.start then e :: x :: xs else x :: insertEnt e xs

def sortByStart (l : List Ent) : List Ent := l.foldl (fun acc e => insertEnt e acc) []

/-- `ContentProcessor._remove_overlaps`: drop an overlapping entity unless it
is strictly longer than the previously kept one, in which case it replaces
it.  `lastEnd` starts at `-1`. -/
def remove_overlaps_go : List Ent → List Ent → Int → List Ent
  | [], filtered, _ => filtered
  | e :: rest, filtered, lastEnd =>
    if (e.start : Int) < lastEnd then
      match filtered.getLast? with
      | some f =>
        if f.stop - f.start < e.stop - e.start then
          remove_overlaps_go rest (filtered.dropLast ++ [e]) (e.stop : Int)
        else
          remove_overlaps_go rest filtered lastEnd
      | none => remove_overlaps_go rest filtered lastEnd
    else
      remove_overlaps_go rest (filtered ++ [e]) (e.stop : Int)

def remove_overlaps (entities : List Ent) : List Ent :=
  remove_overlaps_go entities [] (-1)

/-- `ContentProcessor._normalize_punctuation`: drop NUL, then keep only
non-whitespace characters with code ≥ 32 (or TAB/LF/CR). -/
def normalize_punctuation (t : List Char) : List Char :=
  (t.filter (fun c => c.toNat ≠ 0)).filter
    (fun c => !pyCharIsSpace c &&
      (32 ≤ c.toNat || c.toNat = 9 || c.toNat = 10 || c.toNat = 13))

/-- `ContentProcessor._separate_punctuation_and_spacing`: split at the first
whitespace character; the part before it is normalised punctuation, the rest
(including any later non-space characters) is returned as spacing. -/
def separate_punct_and_spacing (t : List Char) : List Char × List Char :=
  match t.findIdx? pyCharIsSpace with
  | none => (t, [])
  | some i => (normalize_punctuation (t.take i), t.drop i)

/-- Backward scan of `_create_entity_token`: collect the punctuation
immediately before position `start`, stopping at an alphanumeric or a space. -/
def collectPunctBefore (text : List Char) : Nat → List Char → List Char
  | 0, acc => acc
  | i + 1, acc =>
    let c := text.getD i ' '
    if c.isAlphanum || pyCharIsSpace c then acc
    else collectPunctBefore text i (c :: acc)

/-- Forward scan collecting characters satisfying `p` from `pos`. -/
def scanWhile (text : List Char) (p : Char → Bool) : Nat → Nat → List Char × Nat
  | 0, pos => ([], pos)
  | f + 1, pos =>
    match text.get? pos with
    | none => ([], pos)
    | some c =>
      if p c then
        let r := scanWhile text p f (pos + 1)
        (c :: r.1, r.2)
      else ([], pos)

/-- `ContentProcessor._create_entity_token`: lowercased entity text plus the
punctuation found immediately before and after it and the following spacing. -/
def create_entity_token (text : List Char) (entity_text : List Char)
    (start stop : Nat) : Tok :=
  let punct_before := collectPunctBefore text start []
  let pa := scanWhile text (fun c => !(c.isAlphanum || pyCharIsSpace c))
    (text.length + 1) stop
  let sp := scanWhile text pyCharIsSpace (text.length + 1) pa.2
  (String.mk (pyLowerL entity_text), String.mk punct_before,
   String.mk pa.1, String.mk sp.1)

/-- Walk of `_extract_regular_words` over the `word_pattern` matches: the
punctuation before a word is the normalised text since the previous word's
end, the punctuation after and spacing are split from the text up to the
next word's start. -/
def extract_regular_words_go (text : List Char) : List (Nat × Nat) → Nat → List Tok
  | [], _ => []
  | (s, e) :: rest, pos =>
    let punct_before := normalize_punctuation (slice text pos s)
    let punct_after_end :=
      match rest with
      | (s2, _) :: _ => s2
      | [] => text.length
    let pasp := separate_punct_and_spacing (slice text e punct_after_end)
    (String.mk (pyLowerL (slice text s e)), String.mk punct_before,
     String.mk pasp.1, String.mk pasp.2) :: extract_regular_words_go text rest e

/-- `ContentProcessor._extract_regular_words` (the `base_position` argument
of the source is never read and is omitted). -/
def extract_regular_words (text : List Char) : List Tok :=
  extract_regular_words_go text (finditer word_pattern_re text) 0

/-- Token-building walk of `_process_chunk_with_entities`: regular words from
the gap before each entity, then the entity token (a tuple, hence always
truthy in the source's `if entity_token:` check), then the remaining text. -/
def pcwe_go (text : List Char) : List Ent → Nat → List Tok
  | [], pos =>
    if pos < text.length then extract_regular_words (slice text pos text.length)
    else []
  | e :: rest, pos =>
    (if pos < e.start then extract_regular_words (slice text pos e.start) else [])
      ++ [create_entity_token text e.text e.start e.stop]
      ++ pcwe_go text rest e.stop

/-- All entity matches of the six patterns, in `pattern_order`, with their
positions and matched text. -/
def collectEntities (text : List Char) : List Ent :=
  pattern_order.flatMap
    (fun re => (finditer re text).map (fun m => ⟨m.1, m.2, slice text m.1 m.2⟩))

/-- `ContentProcessor._process_chunk_with_entities`. -/
def process_chunk_with_entities (text : List Char) : List Tok :=
  let entities := sortByStart (collectEntities text)
  let filtered := remove_overlaps entities
  pcwe_go text filtered 0

/-- The `for i in range(0, len(text), chunk_size)` loop of
`extract_words_with_punctuation` (chunk size 10000, the source default). -/
def ewp_chunk_loop (t : List Char) : Nat → Nat → List Tok
  | 0, _ => []
  | f + 1, i =>
    if i < t.length then
      process_chunk_with_entities (slice t i (i + 10000)) ++
        ewp_chunk_loop t f (i + 10000)
    else []

/-- `ContentProcessor.extract_words_with_punctuation`: sanitize, then process
successive 10,000-character chunks. -/
def extract_words_with_punctuation (text : String) : List Tok :=
  if text = "" then []
  else
    let t := (sanitize_text text).data
    ewp_chunk_loop t (t.length + 1) 0

/-- `findall` of the word pattern: the matched substrings, lowercased. -/
def findall_words (t : List Char) : List String :=
  (finditer word_pattern_re t).map (fun m => String.mk (pyLowerL (slice t m.1 m.2)))

/-- Walk of `extract_words`: regular words from gaps, entities as single
lowercased words. -/
def ew_go (t : List Char) : List Ent → Nat → List String
  | [], pos =>
    if pos < t.length then findall_words (slice t pos t.length) else []
  | e :: rest, pos =>
    (if pos < e.start then findall_words (slice t pos e.start) else [])
      ++ [String.mk (pyLowerL e.text)] ++ ew_go t rest e.stop

/-- `ContentProcessor.extract_words` (title tokenization, no chunking). -/
def extract_words (text : String) : List String :=
  if text = "" then []
  else
    let t := (sanitize_text text).data
    ew_go t (remove_overlaps (sortByStart (collectEntities t))) 0

/-! ## Blob codec

`pickle.dumps(…, protocol=4)` / `zlib.compress` and their inverses are an
opaque deterministic lossless codec in the source; the spec (§6) admits any
deterministic serialization as long as reads and writes use the same codec.
They are modelled by an executable invertible encoding into `List Nat`. -/

/-- A content token tuple `(word_id, punct_before_id, punct_after_id,
spacing_id)`; the pipeline stores `None` for the three punctuation slots. -/
abbrev TokenTup := Nat × Option Nat × Option Nat × Option Nat

def encodeOptNat : Option Nat → Nat
  | none => 0
  | some k => k + 1

def decodeOptNat : Nat → Option Nat
  | 0 => none
  | k + 1 => some k

/-- Model of `pickle.dumps` on a chunk: length prefix, then 4 numbers per
tuple. -/
def pickle_dumps (chunk : List TokenTup) : List Nat :=
  chunk.length ::
    chunk.flatMap (fun t => [t.1, encodeOptNat t.2.1, encodeOptNat t.2.2.1,
                             encodeOptNat t.2.2.2])

def decodeTuples : Nat → List Nat → List TokenTup
  | 0, _ => []
  | n + 1, w :: a :: b :: c :: rest =>
    (w, decodeOptNat a, decodeOptNat b, decodeOptNat c) :: decodeTuples n rest
  | _ + 1, _ => []

/-- Model of `pickle.loads` on a blob produced by `pickle_dumps`. -/
def pickle_loads : List Nat → List TokenTup
  | [] => []
  | n :: rest => decodeTuples n rest

/-- Model of `pickle.dumps` on a list of word ids (titles). -/
def pickle_dumps_ids (ids : List Nat) : List Nat := ids.length :: ids

/-- Model of `zlib.compress` (lossless, length-prefixed). -/
def zlib_compress (l : List Nat) : List Nat := l.length :: l

def zlib_decompress : List Nat → List Nat
  | [] => []
  | _ :: l => l

/-! ## The relational store -/

structure HashRow where
  id : Nat
  hash : String
  sourceId : Nat
  sideId : Nat
deriving DecidableEq

structure PathRow where
  id : Nat
  fileName : String
  filePath : String
  fileSize : Nat
  fileType : String
  fileStatus : String
  hashId : Nat
deriving DecidableEq

structure ContentRow where
  id : Nat
  contentData : List Nat
  pathId : Nat
deriving DecidableEq

structure WordRow where
  id : Nat
  word : String
deriving DecidableEq

structure WordPathRow where
  pathId : Nat
  wordId : Nat
  wordCount : Nat
deriving DecidableEq

structure TitleRow where
  id : Nat
  titleData : List Nat
  titleStatus : String
  titleContentId : Option Nat
  pathId : Nat
deriving DecidableEq

/-- The store: one list of rows per table, plus the serial-id counters. -/
structure DB where
  hashs : List HashRow
  paths : List PathRow
  contents : List ContentRow
  words : List WordRow
  wordsPaths : List WordPathRow
  titles : List TitleRow
  nextHashId : Nat
  nextPathId : Nat
  nextContentId : Nat
  nextWordId : Nat
  nextTitleId : Nat
deriving DecidableEq

def emptyDB : DB :=
  { hashs := [], paths := [], contents := [], words := [], wordsPaths := [],
    titles := [], nextHashId := 1, nextPathId := 1, nextContentId := 1,
    nextWordId := 1, nextTitleId := 1 }

/-! ## hash_operations -/

/-- The sentinel test of `check_duplicate` / `store_file_complete`:
`not file_hash or file_hash in ('N/A', 'SKIPPED_LARGE_FILE', 'ERROR')`. -/
def invalidSentinel (file_hash : String) : Bool :=
  file_hash = "" || file_hash = "N/A" || file_hash = "SKIPPED_LARGE_FILE" ||
    file_hash = "ERROR"

/-- `SELECT … WHERE hash = %s AND source_id = %s AND side_id = %s LIMIT 1`. -/
def findHashRow (db : DB) (file_hash : String) (source_id side_id : Nat) :
    Option HashRow :=
  db.hashs.find? (fun h =>
    h.hash = file_hash && h.sourceId = source_id && h.sideId = side_id)

/-- `SELECT p.id FROM paths p WHERE p.hash_id = %s ORDER BY p.id DESC LIMIT 1`:
the referencing path with the greatest id. -/
def newestPathFor (db : DB) (hash_id : Nat) : Option PathRow :=
  (db.paths.filter (fun p => p.hashId = hash_id)).foldl
    (fun acc p =>
      match acc with
      | none => some p
      | some q => if q.id < p.id then some p else some q)
    none

/-- `HashOperations.check_duplicate`: sentinel digests short-circuit to
`(False, None)`; otherwise a duplicate needs a matching hash row *and* a
referencing path; a matching hash row with no path is an orphan and is not
a duplicate. -/
def check_duplicate (db : DB) (file_hash : String) (source_id side_id : Nat) :
    Bool × Option Nat :=
  if invalidSentinel file_hash then (false, none)
  else
    match findHashRow db file_hash source_id side_id with
    | none => (false, none)
    | some h =>
      match newestPathFor db h.id with
      | some p => (true, some p.id)
      | none => (false, none)

/-- `HashOperations.store_hash`: select the `(hash, source, side)` triple,
returning the existing id, else insert a fresh row. -/
def store_hash (db : DB) (file_hash : String) (source_id side_id : Nat) :
    Nat × DB :=
  match findHashRow db file_hash source_id side_id with
  | some h => (h.id, db)
  | none =>
    (db.nextHashId,
     { db with
        hashs := db.hashs ++ [⟨db.nextHashId, file_hash, source_id, side_id⟩],
        nextHashId := db.nextHashId + 1 })

/-! ## path_operations -/

/-- The `file_info` dictionary fields read by the pipeline. -/
structure FileInfo where
  name : String
  path : String
  hash : String
  sizeBytes : Nat
  fileType : String
  extension : String
deriving DecidableEq

/-- `PathOperations.store_metadata`: truncate the textual fields, validate
the status, insert the row with a fresh id. -/
def store_metadata (db : DB) (file_info : FileInfo) (hash_id : Nat)
    (file_status : String) : Nat × DB :=
  let status := if file_status = "Read" || file_status = "Unread"
    then file_status else "Unread"
  (db.nextPathId,
   { db with
      paths := db.paths ++
        [⟨db.nextPathId, file_info.name.take 500, file_info.path.take 500,
          file_info.sizeBytes, file_info.fileType.take 100, status, hash_id⟩],
      nextPathId := db.nextPathId + 1 })

/-- `PathOperations.update_file_status`: reject invalid statuses, otherwise
`UPDATE paths SET file_status = %s WHERE id = %s`. -/
def update_file_status (db : DB) (path_id : Nat) (status : String) : DB :=
  if status = "Read" || status = "Unread" then
    { db with
        paths := db.paths.map (fun p =>
          if p.id = path_id then { p with fileStatus := status } else p) }
  else db

/-! ## word_operations -/

/-- `WordOperations.get_or_create_word_id`: sanitize the lowercased word,
select it, insert a fresh row when absent.  (The in-memory word cache is a
memo of the `words` table and is elided.) -/
def get_or_create_word_id (db : DB) (word : String) : Nat × DB :=
  let w := sanitize_text (pyLower word)
  match db.words.find? (fun r => r.word = w) with
  | some r => (r.id, db)
  | none =>
    (db.nextWordId,
     { db with
        words := db.words ++ [⟨db.nextWordId, w⟩],
        nextWordId := db.nextWordId + 1 })

/-- One row of the `words_paths` upsert:
`INSERT … ON CONFLICT (path_id, word_id) DO UPDATE SET word_count = …`. -/
def upsertWordPath (db : DB) (path_id word_id cnt : Nat) : DB :=
  if db.wordsPaths.any (fun r => r.pathId = path_id && r.wordId = word_id) then
    { db with
        wordsPaths := db.wordsPaths.map (fun r =>
          if r.pathId = path_id && r.wordId = word_id then
            { r with wordCount := cnt }
          else r) }
  else { db with wordsPaths := db.wordsPaths ++ [⟨path_id, word_id, cnt⟩] }

/-- The id-resolution loop of `store_word_frequencies`. -/
def resolveWordIds (db : DB) : List (String × Nat) → List (Nat × Nat) × DB
  | [] => ([], db)
  | (w, c) :: rest =>
    let r := get_or_create_word_id db w
    let rec' := resolveWordIds r.2 rest
    ((r.1, c) :: rec'.1, rec'.2)

/-- The row-by-row upsert of `execute_batch`. -/
def upsertWordPaths (db : DB) (path_id : Nat) : List (Nat × Nat) → DB
  | [] => db
  | wc :: rest => upsertWordPaths (upsertWordPath db path_id wc.1 wc.2) path_id rest

/-- `WordOperations.store_word_frequencies`: resolve a word id per entry,
then upsert one `words_paths` row per entry. -/
def store_word_frequencies (db : DB) (path_id : Nat)
    (word_counts : List (String × Nat)) : DB :=
  if word_counts.isEmpty then db
  else
    let bulk := resolveWordIds db word_counts
    upsertWordPaths bulk.2 path_id bulk.1

/-! ## content_operations -/

/-- Slicing into chunks of `n` (`token_tuples[i:i+chunk_size]` stepping). -/
def chunksOf (n : Nat) (l : List α) : List (List α) :=
  match l with
  | [] => []
  | x :: xs =>
    if _h : n = 0 then []
    else (x :: xs).take n :: chunksOf n ((x :: xs).drop n)
termination_by l.length
decreasing_by
  simp only [List.length_drop, List.length_cons]
  omega

/-- The `for chunk in chunks` insertion loop of `store_content_chunks`. -/
def insertChunks (db : DB) (path_id : Nat) : List (List TokenTup) → DB
  | [] => db
  | c :: cs =>
    insertChunks
      { db with
          contents := db.contents ++
            [⟨db.nextContentId, zlib_compress (pickle_dumps c), path_id⟩],
          nextContentId := db.nextContentId + 1 }
      path_id cs

/-- `ContentOperations.store_content_chunks`: the passed chunk size is
overridden (100000, or 5000 when the tuple count is at least 1000000);
each chunk is pickled, compressed and inserted in order. -/
def store_content_chunks (db : DB) (token_tuples : List TokenTup)
    (path_id : Nat) : DB :=
  let chunk_size := if token_tuples.length < 1000000 then 100000 else 5000
  insertChunks db path_id (chunksOf chunk_size token_tuples)

/-- Ascending insertion sort by id (`ORDER BY id`). -/
def insertById (r : ContentRow) : List ContentRow → List ContentRow
  | [] => [r]
  | x :: xs => if r.id < x.id then r :: x :: xs else x :: insertById r xs

def sortContentsById (l : List ContentRow) : List ContentRow :=
  l.foldl (fun acc r => insertById r acc) []

/-- `ContentOperations.retrieve_content`: select the path's chunks ordered by
id, skip empty blobs, decompress, unpickle, concatenate. -/
def retrieve_content (db : DB) (path_id : Nat) : List TokenTup :=
  (sortContentsById (db.contents.filter (fun r => r.pathId = path_id))).flatMap
    (fun r =>
      if r.contentData.isEmpty then []
      else pickle_loads (zlib_decompress r.contentData))

/-! ## title_operations -/

/-- Python truthiness of the optional `parent_path_id`. -/
def pyTruthyOpt : Option Nat → Bool
  | none => false
  | some n => n ≠ 0

/-- `TitleOperations.store_title`: empty id lists store nothing; the status
is `Branch` iff a (truthy) parent path id was passed; the parent title
reference is the id of the parent path's title row when one exists, else
NULL. -/
def store_title (db : DB) (word_ids : List Nat) (path_id : Nat)
    (parent_path_id : Option Nat) : DB :=
  if word_ids.isEmpty then db
  else
    let title_status := if pyTruthyOpt parent_path_id then "Branch" else "Main"
    let title_content_id :=
      if pyTruthyOpt parent_path_id then
        ((db.titles.find? (fun t => t.pathId = parent_path_id.getD 0)).map
          (fun t => t.id))
      else none
    { db with
        titles := db.titles ++
          [⟨db.nextTitleId, zlib_compress (pickle_dumps_ids word_ids),
            title_status, title_content_id, path_id⟩],
        nextTitleId := db.nextTitleId + 1 }

/-! ## StoragePipeline -/

inductive StorageResult where
  | success
  | duplicate
  | error
  | invalid_hash
  | invalid_data
deriving DecidableEq

structure StorageResponse where
  result : StorageResult
  pathId : Option Nat := none
  errorMessage : Option String := none
  duplicatePathId : Option Nat := none
deriving DecidableEq

/-- The `result['Content']` value as the pipeline inspects it: either not a
dict, or a dict with an optional `error` key, optional `title` / `subject`
strings, and the text the flattener `_extract_text_from_content` derives
from it.  The flattener itself (a 180-line dictionary walk) is not examined
by any claim and is abstracted by its output `flatText`. -/
inductive ContentVal where
  | notDict : ContentVal
  | someDict (hasError : Bool) (title subject : Option String)
      (flatText : String) : ContentVal
deriving DecidableEq

def extract_text_from_content : ContentVal → String
  | .notDict => ""
  | .someDict _ _ _ flatText => flatText

/-- `StoragePipeline._extract_title`: the content's `title`, else `subject`,
else the file name, truncated to 200 characters. -/
def extract_title (result : ContentVal) (file_info : FileInfo) : String :=
  match result with
  | .someDict _ (some t) _ _ => t.take 200
  | .someDict _ none (some s) _ => s.take 200
  | _ => file_info.name.take 200

/-- Python `set(…)` over a word sequence, modelled in first-occurrence
order (the iteration order is not observable through any claim). -/
def pySet : List String → List String
  | [] => []
  | x :: xs => x :: (pySet xs).filter (fun w => w ≠ x)

/-- Python `collections.Counter(…)` as an association list: keys in
first-occurrence order, each with its total multiplicity. -/
def pyCounter (l : List String) : List (String × Nat) :=
  (pySet l).map (fun w => (w, (l.filter (fun x => x = w)).length))

/-- The word-id resolution loop over `words = set(…)` of
`_store_content_pipeline`, returning the `word_id_map`. -/
def ensureWords (db : DB) : List String → List (String × Nat) × DB
  | [] => ([], db)
  | w :: ws =>
    let r := get_or_create_word_id db w
    let rest := ensureWords r.2 ws
    ((w, r.1) :: rest.1, rest.2)

def lookupWordId (m : List (String × Nat)) (w : String) : Nat :=
  match m.find? (fun e => e.1 = w) with
  | some e => e.2
  | none => 0

/-- `StoragePipeline._store_content_pipeline`: tokenize; on a non-empty token
list resolve word ids over the distinct words, build `(word_id, None, None,
None)` tuples, store the compressed chunks, then store the word-frequency
counter. -/
def store_content_pipeline (db : DB) (text : String) (path_id : Nat) : DB :=
  let tokens := extract_words_with_punctuation text
  if tokens.isEmpty then db
  else
    let words := pySet (tokens.map (fun t => t.1))
    let ew := ensureWords db words
    let token_tuples : List TokenTup :=
      tokens.map (fun t => (lookupWordId ew.1 t.1, none, none, none))
    let db₂ := store_content_chunks ew.2 token_tuples path_id
    let word_counts := pyCounter (tokens.map (fun t => t.1))
    store_word_frequencies db₂ path_id word_counts

/-- The id-resolution loop of `_store_title_pipeline`. -/
def resolveTitleWordIds (db : DB) : List String → List Nat × DB
  | [] => ([], db)
  | w :: ws =>
    let r := get_or_create_word_id db w
    let rest := resolveTitleWordIds r.2 ws
    (r.1 :: rest.1, rest.2)

/-- `StoragePipeline._store_title_pipeline`. -/
def store_title_pipeline (db : DB) (title : String) (path_id : Nat)
    (parent_path_id : Option Nat) : DB :=
  let words := extract_words title
  if words.isEmpty then db
  else
    let r := resolveTitleWordIds db words
    store_title r.2 r.1 path_id parent_path_id

/-- The file system as the pipeline sees it in step 1: `fs path` is the
SHA-256 digest `calculate_file_hash` computes for an existing readable
file, `none` when the path does not exist or hashing raises. -/
abbrev FS := String → Option String

/-- `StoragePipeline.store_file_complete`.  Step numbering follows the
source; the statistics counters are not part of the store and the
`enable_concurrency` pool submission for texts over 100000 characters is
modelled as the synchronous completion of the same work.  Exception paths
(`INVALID_HASH` when the hash cannot be recomputed) are the `none` branches
of `fs`. -/
def store_file_complete (db : DB) (source_id side_id : Nat)
    (file_info : FileInfo) (result : ContentVal)
    (parent_path_id : Option Nat) (hierarchy_path : Option String)
    (fs : FS) : StorageResponse × DB :=
  -- 1. Validate and get hash
  let step1 : Option (String × FileInfo) :=
    if invalidSentinel file_info.hash then
      if file_info.path ≠ "" then
        match fs file_info.path with
        | some d => some (d, { file_info with hash := d })
        | none => none
      else none
    else some (file_info.hash, file_info)
  match step1 with
  | none => ({ result := .invalid_hash,
               errorMessage := some "Invalid hash and cannot recalculate" }, db)
  | some (file_hash, fi) =>
    if file_hash = "" then
      ({ result := .invalid_hash,
         errorMessage := some "Hash is empty after validation" }, db)
    else
      -- 2. Check duplicate
      let dup := check_duplicate db file_hash source_id side_id
      if dup.1 then
        ({ result := .duplicate, duplicatePathId := dup.2 }, db)
      else
        -- 3. Store hash (reuses an orphaned hash if one exists)
        let sh := store_hash db file_hash source_id side_id
        -- 4. Store metadata (initially 'Unread')
        let fi₂ :=
          match hierarchy_path with
          | some hp => { fi with path := hp.take 500 }
          | none => fi
        let sm := store_metadata sh.2 fi₂ sh.1 "Unread"
        let path_id := sm.1
        -- 5. Extract and store content
        let step5 : Bool × DB :=
          match result with
          | .someDict hasError _ _ _ =>
            if !hasError then
              let text := extract_text_from_content result
              if text ≠ "" ∧ (pyStrip text).length > 0 then
                (true, store_content_pipeline sm.2 text path_id)
              else (false, sm.2)
            else (false, sm.2)
          | .notDict => (false, sm.2)
        let has_readable_content := step5.1
        -- 6. Store title
        let title := extract_title result fi₂
        let db₄ :=
          if title ≠ "" then
            store_title_pipeline step5.2 title path_id parent_path_id
          else step5.2
        -- 7. Update file status
        let file_status := if has_readable_content then "Read" else "Unread"
        let db₅ := update_file_status db₄ path_id file_status
        ({ result := .success, pathId := some path_id }, db₅)

/-! ## file_utils and the priority dispatcher -/

/-- The hash selection of `get_standardized_metadata` for an existing,
readable regular file: compute the SHA-256 below the 100 MiB limit, else
assign the sentinel `"SKIPPED_LARGE_FILE"`; a hashing failure yields
`"ERROR"`. -/
def metadataFileHash (size_bytes : Nat) (fs : FS) (file_path : String) : String :=
  if size_bytes < 100 * 1024 * 1024 then
    match fs file_path with
    | some d => d
    | none => "ERROR"
  else "SKIPPED_LARGE_FILE"

/-- `IntegratedFileReader._calculate_file_priority`: base priority by
extension group, a size adjustment, capped at 10.  The source guards the
size adjustment with `if size > 10 MiB: +2 elif size > 50 MiB: +3`. -/
def calculate_file_priority (extension : String) (size_bytes : Nat) : Nat :=
  let ext := pyLower extension
  let priority :=
    if [".txt", ".json", ".xml", ".csv", ".yaml", ".yml"].contains ext then 1
    else if [".docx", ".xlsx", ".pptx", ".doc", ".xls", ".ppt"].contains ext then 3
    else if [".pdf"].contains ext then 5
    else if [".png", ".jpg", ".jpeg", ".gif", ".bmp", ".tiff", ".webp"].contains ext
      then 7
    else if [".zip", ".rar", ".7z", ".tar", ".gz", ".eml", ".msg", ".pst"].contains ext
      then 9
    else 5
  let priority :=
    if size_bytes > 10 * 1024 * 1024 then priority + 2
    else if size_bytes > 50 * 1024 * 1024 then priority + 3
    else priority
  min priority 10

/-! ## Derived definitions used by the theorems -/

/-- The rows `insertChunks` appends: consecutive ids from `start`. -/
def chunkRows (start path_id : Nat) : List (List TokenTup) → List ContentRow
  | [] => []
  | c :: cs =>
    ⟨start, zlib_compress (pickle_dumps c), path_id⟩ :: chunkRows (start + 1) path_id cs

/-- The `has_readable_content` flag of step 5: an error-free dict whose
derived text is non-empty and has a non-empty strip. -/
def hasReadableContent : ContentVal → Bool
  | .notDict => false
  | .someDict hasError _ _ tx =>
    !hasError && (decide (tx ≠ "") && decide (0 < (pyStrip tx).length))

/-- The `file_info` after the optional `hierarchy_path` override of step 4. -/
def sfcFileInfo (fi : FileInfo) (hp : Option String) : FileInfo :=
  match hp with
  | some h => { fi with path := h.take 500 }
  | none => fi

/-- Steps 3 and 4 of a non-duplicate run: hash insert then metadata insert. -/
def sfcMeta (db : DB) (src side : Nat) (fi : FileInfo) (hp : Option String) :
    Nat × DB :=
  store_metadata (store_hash db fi.hash src side).2 (sfcFileInfo fi hp)
    (store_hash db fi.hash src side).1 "Unread"

/-- Step 5 of a non-duplicate run. -/
def sfcContentStep (r : ContentVal) (smdb : DB) (pid : Nat) : DB :=
  if hasReadableContent r then
    store_content_pipeline smdb (extract_text_from_content r) pid
  else smdb

/-- Step 6 of a non-duplicate run. -/
def sfcTitleStep (r : ContentVal) (fi : FileInfo) (hp : Option String)
    (db₃ : DB) (pid : Nat) (pp : Option Nat) : DB :=
  if extract_title r (sfcFileInfo fi hp) ≠ "" then
    store_title_pipeline db₃ (extract_title r (sfcFileInfo fi hp)) pid pp
  else db₃

/-- The state after a non-duplicate run of `store_file_complete` (steps 3–7
of the workflow in order). -/
def sfcSuccessState (db : DB) (src side : Nat) (fi : FileInfo) (r : ContentVal)
    (pp : Option Nat) (hp : Option String) : DB :=
  update_file_status
    (sfcTitleStep r fi hp
      (sfcContentStep r (sfcMeta db src side fi hp).2 (sfcMeta db src side fi hp).1)
      (sfcMeta db src side fi hp).1 pp)
    (sfcMeta db src side fi hp).1
    (if hasReadableContent r then "Read" else "Unread")

/-- A 64-character digest used as concrete test data. -/
def d64 : String := String.mk (List.replicate 64 'a')

/-- A file system with no readable files. -/
def fs0 : FS := fun _ => none

/-- A file system carrying one readable file. -/
def fs1 : FS := fun p => if p = "/a.txt" then some d64 else none

/-- Concrete file used by the witnesses. -/
def fiW : FileInfo :=
  { name := "a", path := "/a.txt", hash := d64, sizeBytes := 5,
    fileType := "FILE", extension := ".txt" }

/-- A store holding one hash row with a three-character digest and one path
referencing it. -/
def dbShort : DB :=
  { emptyDB with
      hashs := [⟨1, "abc", 1, 1⟩],
      paths := [⟨1, "f", "/f", 0, "FILE", "Unread", 1⟩],
      nextHashId := 2, nextPathId := 2 }

/-- A store holding two paths and one title row owned by path 1. -/
def dbTitled : DB :=
  { emptyDB with
      paths := [⟨1, "f", "/f", 0, "FILE", "Unread", 1⟩,
                ⟨2, "g", "/g", 0, "FILE", "Unread", 1⟩],
      titles := [⟨1, zlib_compress (pickle_dumps_ids [3]), "Main", none, 1⟩],
      nextPathId := 3, nextTitleId := 2 }

/-- The metadata of a 200 MiB file whose scan assigned the large-file
sentinel. -/
def fiBig : FileInfo :=
  { name := "big.bin", path := "/a.txt", hash := "SKIPPED_LARGE_FILE",
    sizeBytes := 200 * 1024 * 1024, fileType := "FILE", extension := ".bin" }

/-! ## Well-formedness of the store

Invariants maintained by the operations and assumed by the theorems: row ids
are below the serial counters, the `(digest, source, side)` triple is unique
in `hashs`, paths reference allocated hash ids, and `words` is unique in
both text and id. -/

/-- Well-formedness of the `words` table: ids below the counter, unique
texts, unique ids. -/
def wordsWF (db : DB) : Prop :=
  (∀ w ∈ db.words, w.id < db.nextWordId) ∧
  (∀ w₁ ∈ db.words, ∀ w₂ ∈ db.words, w₁.word = w₂.word → w₁ = w₂) ∧
  (∀ w₁ ∈ db.words, ∀ w₂ ∈ db.words, w₁.id = w₂.id → w₁ = w₂)

def dbWF (db : DB) : Prop :=
  (∀ h ∈ db.hashs, h.id < db.nextHashId) ∧
  (∀ h₁ ∈ db.hashs, ∀ h₂ ∈ db.hashs,
      h₁.hash = h₂.hash → h₁.sourceId = h₂.sourceId → h₁.sideId = h₂.sideId →
      h₁ = h₂) ∧
  (∀ p ∈ db.paths, p.id < db.nextPathId) ∧
  (∀ p ∈ db.paths, p.hashId < db.nextHashId) ∧
  wordsWF db

instance (db : DB) : Decidable (wordsWF db) := by
  unfold wordsWF
  infer_instance

instance (db : DB) : Decidable (dbWF db) := by
  unfold dbWF
  infer_instance

/-- The per-(path, word) count stored in `words_paths` (0 when no row). -/
def wordPathCount (db : DB) (path_id word_id : Nat) : Nat :=
  match db.wordsPaths.find? (fun r => r.pathId = path_id && r.wordId = word_id) with
  | some r => r.wordCount
  | none => 0

/-! ## Generic lemmas: chunking -/

theorem chunksOf_cons (n : Nat) (hn : n ≠ 0) (x : α) (xs : List α) :
    chunksOf n (x :: xs) = (x :: xs).take n :: chunksOf n ((x :: xs).drop n) := by
  rw [chunksOf]
  simp [hn]

theorem chunksOf_nil (n : Nat) : chunksOf n ([] : List α) = [] := by
  rw [chunksOf]

theorem chunksOf_eq_cons_of_ne (n : Nat) (hn : n ≠ 0) (l : List α) (hl : l ≠ []) :
    chunksOf n l = l.take n :: chunksOf n (l.drop n) := by
  cases l with
  | nil => exact absurd rfl hl
  | cons x xs => exact chunksOf_cons n hn x xs

theorem chunksOf_flatten_aux (n : Nat) (hn : n ≠ 0) :
    ∀ fuel : Nat, ∀ l : List α, l.length ≤ fuel → (chunksOf n l).flatten = l := by
  intro fuel
  induction fuel with
  | zero =>
    intro l hl
    have : l = [] := List.length_eq_zero.mp (Nat.le_zero.mp hl)
    simp [this, chunksOf_nil]
  | succ m ih =>
    intro l hl
    cases l with
    | nil => simp [chunksOf_nil]
    | cons x xs =>
      rw [chunksOf_cons n hn x xs]
      have hdrop : ((x :: xs).drop n).length ≤ m := by
        simp only [List.length_drop, List.length_cons]
        simp only [List.length_cons] at hl
        omega
      rw [List.flatten_cons, ih _ hdrop, List.take_append_drop]

theorem chunksOf_flatten (n : Nat) (hn : n ≠ 0) (l : List α) :
    (chunksOf n l).flatten = l :=
  chunksOf_flatten_aux n hn l.length l le_rfl

theorem mem_chunksOf_aux (n : Nat) (hn : n ≠ 0) :
    ∀ fuel : Nat, ∀ l : List α, l.length ≤ fuel → ∀ c ∈ chunksOf n l,
      c ≠ [] ∧ c.length ≤ n ∧ ∀ a ∈ c, a ∈ l := by
  intro fuel
  induction fuel with
  | zero =>
    intro l hl
    have : l = [] := List.length_eq_zero.mp (Nat.le_zero.mp hl)
    simp [this, chunksOf_nil]
  | succ m ih =>
    intro l hl
    cases l with
    | nil => simp [chunksOf_nil]
    | cons x xs =>
      rw [chunksOf_cons n hn x xs]
      intro c hc
      rcases List.mem_cons.mp hc with hc | hc
      · subst hc
        refine ⟨?_, ?_, ?_⟩
        · cases n with
          | zero => exact absurd rfl hn
          | succ k => simp
        · exact List.length_take_le n _
        · intro a ha
          exact List.mem_of_mem_take ha
      · have hdrop : ((x :: xs).drop n).length ≤ m := by
          simp only [List.length_drop, List.length_cons]
          simp only [List.length_cons] at hl
          omega
        have := ih _ hdrop c hc
        exact ⟨this.1, this.2.1, fun a ha =>
          List.mem_of_mem_drop (this.2.2 a ha)⟩

theorem mem_chunksOf (n : Nat) (hn : n ≠ 0) (l : List α) :
    ∀ c ∈ chunksOf n l, c ≠ [] ∧ c.length ≤ n ∧ ∀ a ∈ c, a ∈ l :=
  mem_chunksOf_aux n hn l.length l le_rfl

/-! ## Generic lemmas: the blob codec is lossless -/

theorem decodeOptNat_encodeOptNat (x : Option Nat) :
    decodeOptNat (encodeOptNat x) = x := by
  cases x <;> rfl

theorem decodeTuples_append (c : List TokenTup) (rest : List Nat) :
    decodeTuples c.length
        (c.flatMap (fun t => [t.1, encodeOptNat t.2.1, encodeOptNat t.2.2.1,
          encodeOptNat t.2.2.2]) ++ rest) = c := by
  induction c with
  | nil => rfl
  | cons t ts ih =>
    obtain ⟨w, a, b, d⟩ := t
    simp only [List.flatMap_cons, List.length_cons, List.append_assoc,
      List.cons_append, List.nil_append, decodeTuples,
      decodeOptNat_encodeOptNat]
    exact congrArg _ (ih)

theorem pickle_loads_dumps (c : List TokenTup) :
    pickle_loads (pickle_dumps c) = c := by
  have := decodeTuples_append c []
  simpa [pickle_dumps, pickle_loads] using this

theorem zlib_roundtrip (l : List Nat) : zlib_decompress (zlib_compress l) = l := rfl

theorem zlib_compress_ne_nil (l : List Nat) : zlib_compress l ≠ [] := by
  simp [zlib_compress]

/-! ## Generic lemmas: `ORDER BY id` on rows inserted with increasing ids -/

theorem insertById_of_forall_lt (r : ContentRow) (l : List ContentRow)
    (h : ∀ x ∈ l, x.id < r.id) : insertById r l = l ++ [r] := by
  induction l with
  | nil => rfl
  | cons x xs ih =>
    have hx : x.id < r.id := h x (List.mem_cons_self x xs)
    simp only [insertById, if_neg (by omega : ¬ r.id < x.id), List.cons_append]
    exact congrArg _ (ih fun y hy => h y (List.mem_cons_of_mem x hy))

theorem sortContentsById_sorted_aux (l acc : List ContentRow)
    (h : (acc ++ l).Pairwise (fun a b => a.id < b.id)) :
    l.foldl (fun a r => insertById r a) acc = acc ++ l := by
  induction l generalizing acc with
  | nil => simp
  | cons x xs ih =>
    have hx : ∀ y ∈ acc, y.id < x.id := by
      intro y hy
      have := List.pairwise_append.mp h
      exact this.2.2 y hy x (List.mem_cons_self x xs)
    have : insertById x acc = acc ++ [x] := insertById_of_forall_lt x acc hx
    rw [List.foldl_cons, this, ih (acc ++ [x]) (by simpa using h)]
    simp

theorem sortContentsById_sorted (l : List ContentRow)
    (h : l.Pairwise (fun a b => a.id < b.id)) : sortContentsById l = l := by
  simpa using sortContentsById_sorted_aux l [] (by simpa using h)

/-! ## Lemmas on sanitized text and the tokenizer chunk loop -/

theorem mem_sanitize_data {s : String} {c : Char}
    (h : c ∈ (sanitize_text s).data) : c.toNat ≠ 0 ∧ sanitizeKeep c = true := by
  simp only [sanitize_text, String.mk] at h
  have h₂ := List.mem_filter.mp h
  have h₁ := List.mem_filter.mp h₂.1
  exact ⟨by simpa using h₁.2, h₂.2⟩

theorem sanitize_of_clean (l : List Char)
    (h : ∀ c ∈ l, c.toNat ≠ 0 ∧ sanitizeKeep c = true) :
    sanitize_text (String.mk l) = String.mk l := by
  simp only [sanitize_text, String.mk]
  congr 1
  have h1 : l.filter (fun c => decide (c.toNat ≠ 0)) = l :=
    List.filter_eq_self.mpr (fun c hc => by simpa using (h c hc).1)
  rw [h1, List.filter_eq_self.mpr (fun c hc => (h c hc).2)]

theorem string_mk_ne_empty {l : List Char} (h : l ≠ []) : String.mk l ≠ "" := by
  intro he
  exact h (congrArg String.data he)

theorem ewp_chunk_loop_eq (t : List Char) :
    ∀ fuel i, t.length - i ≤ fuel →
      ewp_chunk_loop t fuel i =
        ((chunksOf 10000 (t.drop i)).map process_chunk_with_entities).flatten := by
  intro fuel
  induction fuel with
  | zero =>
    intro i hi
    have hdrop : t.drop i = [] := List.drop_eq_nil_of_le (by omega)
    simp [ewp_chunk_loop, hdrop, chunksOf_nil, show ¬ i < t.length by omega]
  | succ m ih =>
    intro i hi
    by_cases hlt : i < t.length
    · have hne : t.drop i ≠ [] := by
        intro h
        have := List.drop_eq_nil_iff.mp h
        omega
      rw [show ewp_chunk_loop t (m + 1) i =
          process_chunk_with_entities (slice t i (i + 10000)) ++
            ewp_chunk_loop t m (i + 10000) by simp [ewp_chunk_loop, hlt]]
      rw [chunksOf_eq_cons_of_ne 10000 (by omega) _ hne]
      have hslice : slice t i (i + 10000) = (t.drop i).take 10000 := by
        simp [slice]
      have hdd : (t.drop i).drop 10000 = t.drop (i + 10000) := by
        rw [List.drop_drop, Nat.add_comm]
      rw [List.map_cons, List.flatten_cons, hslice, hdd, ih (i + 10000) (by omega)]
    · have hdrop : t.drop i = [] := List.drop_eq_nil_of_le (by omega)
      simp [ewp_chunk_loop, hlt, hdrop, chunksOf_nil]

theorem extract_wwp_of_small_clean (chunk : List Char) (hne : chunk ≠ [])
    (hlen : chunk.length ≤ 10000)
    (hclean : ∀ c ∈ chunk, c.toNat ≠ 0 ∧ sanitizeKeep c = true) :
    extract_words_with_punctuation (String.mk chunk) =
      process_chunk_with_entities chunk := by
  rw [extract_words_with_punctuation, if_neg (string_mk_ne_empty hne),
    sanitize_of_clean chunk hclean]
  show ewp_chunk_loop chunk (chunk.length + 1) 0 = _
  rw [ewp_chunk_loop_eq chunk (chunk.length + 1) 0 (by omega), List.drop_zero,
    chunksOf_eq_cons_of_ne 10000 (by omega) chunk hne,
    List.take_of_length_le hlen, List.drop_eq_nil_of_le (by omega),
    chunksOf_nil, List.map_cons, List.map_nil, List.flatten_cons,
    List.flatten_nil, List.append_nil]

/-! ## Frame lemmas: which fields each operation touches -/

theorem store_hash_frame (db : DB) (h : String) (src side : Nat) :
    (store_hash db h src side).2.paths = db.paths ∧
    (store_hash db h src side).2.contents = db.contents ∧
    (store_hash db h src side).2.words = db.words ∧
    (store_hash db h src side).2.wordsPaths = db.wordsPaths ∧
    (store_hash db h src side).2.titles = db.titles ∧
    (store_hash db h src side).2.nextPathId = db.nextPathId ∧
    (store_hash db h src side).2.nextContentId = db.nextContentId ∧
    (store_hash db h src side).2.nextWordId = db.nextWordId ∧
    (store_hash db h src side).2.nextTitleId = db.nextTitleId := by
  unfold store_hash
  cases findHashRow db h src side <;> simp

theorem store_metadata_eq (db : DB) (fi : FileInfo) (hash_id : Nat) :
    store_metadata db fi hash_id "Unread" =
      (db.nextPathId,
       { db with
          paths := db.paths ++
            [⟨db.nextPathId, fi.name.take 500, fi.path.take 500, fi.sizeBytes,
              fi.fileType.take 100, "Unread", hash_id⟩],
          nextPathId := db.nextPathId + 1 }) := by
  simp [store_metadata]

theorem get_or_create_word_id_frame (db : DB) (w : String) :
    (get_or_create_word_id db w).2.hashs = db.hashs ∧
    (get_or_create_word_id db w).2.paths = db.paths ∧
    (get_or_create_word_id db w).2.contents = db.contents ∧
    (get_or_create_word_id db w).2.wordsPaths = db.wordsPaths ∧
    (get_or_create_word_id db w).2.titles = db.titles ∧
    (get_or_create_word_id db w).2.nextHashId = db.nextHashId ∧
    (get_or_create_word_id db w).2.nextPathId = db.nextPathId ∧
    (get_or_create_word_id db w).2.nextContentId = db.nextContentId ∧
    (get_or_create_word_id db w).2.nextTitleId = db.nextTitleId := by
  unfold get_or_create_word_id
  cases hf : db.words.find? (fun r => r.word = sanitize_text (pyLower w)) <;>
    simp [hf]

theorem ensureWords_frame (ws : List String) :
    ∀ db : DB,
      (ensureWords db ws).2.hashs = db.hashs ∧
      (ensureWords db ws).2.paths = db.paths ∧
      (ensureWords db ws).2.contents = db.contents ∧
      (ensureWords db ws).2.wordsPaths = db.wordsPaths ∧
      (ensureWords db ws).2.titles = db.titles ∧
      (ensureWords db ws).2.nextHashId = db.nextHashId ∧
      (ensureWords db ws).2.nextPathId = db.nextPathId ∧
      (ensureWords db ws).2.nextContentId = db.nextContentId ∧
      (ensureWords db ws).2.nextTitleId = db.nextTitleId := by
  induction ws with
  | nil => intro db; simp [ensureWords]
  | cons w rest ih =>
    intro db
    obtain ⟨a1, a2, a3, a4, a5, a6, a7, a8, a9⟩ := get_or_create_word_id_frame db w
    obtain ⟨b1, b2, b3, b4, b5, b6, b7, b8, b9⟩ := ih (get_or_create_word_id db w).2
    simp only [ensureWords]
    exact ⟨b1.trans a1, b2.trans a2, b3.trans a3, b4.trans a4, b5.trans a5,
           b6.trans a6, b7.trans a7, b8.trans a8, b9.trans a9⟩


theorem resolveWordIds_frame (wc : List (String × Nat)) :
    ∀ db : DB,
      (resolveWordIds db wc).2.hashs = db.hashs ∧
      (resolveWordIds db wc).2.paths = db.paths ∧
      (resolveWordIds db wc).2.contents = db.contents ∧
      (resolveWordIds db wc).2.wordsPaths = db.wordsPaths ∧
      (resolveWordIds db wc).2.titles = db.titles ∧
      (resolveWordIds db wc).2.nextHashId = db.nextHashId ∧
      (resolveWordIds db wc).2.nextPathId = db.nextPathId ∧
      (resolveWordIds db wc).2.nextContentId = db.nextContentId ∧
      (resolveWordIds db wc).2.nextTitleId = db.nextTitleId := by
  induction wc with
  | nil => intro db; simp [resolveWordIds]
  | cons x rest ih =>
    intro db
    obtain ⟨a1, a2, a3, a4, a5, a6, a7, a8, a9⟩ := get_or_create_word_id_frame db x.1
    obtain ⟨b1, b2, b3, b4, b5, b6, b7, b8, b9⟩ := ih (get_or_create_word_id db x.1).2
    simp only [resolveWordIds]
    exact ⟨b1.trans a1, b2.trans a2, b3.trans a3, b4.trans a4, b5.trans a5,
           b6.trans a6, b7.trans a7, b8.trans a8, b9.trans a9⟩

theorem resolveTitleWordIds_frame (ws : List String) :
    ∀ db : DB,
      (resolveTitleWordIds db ws).2.hashs = db.hashs ∧
      (resolveTitleWordIds db ws).2.paths = db.paths ∧
      (resolveTitleWordIds db ws).2.contents = db.contents ∧
      (resolveTitleWordIds db ws).2.wordsPaths = db.wordsPaths ∧
      (resolveTitleWordIds db ws).2.nextHashId = db.nextHashId ∧
      (resolveTitleWordIds db ws).2.nextPathId = db.nextPathId ∧
      (resolveTitleWordIds db ws).2.nextContentId = db.nextContentId := by
  induction ws with
  | nil => intro db; simp [resolveTitleWordIds]
  | cons w rest ih =>
    intro db
    obtain ⟨a1, a2, a3, a4, _, a6, a7, a8, _⟩ :=
      get_or_create_word_id_frame db w
    obtain ⟨b1, b2, b3, b4, b6, b7, b8⟩ := ih (get_or_create_word_id db w).2
    simp only [resolveTitleWordIds]
    exact ⟨b1.trans a1, b2.trans a2, b3.trans a3, b4.trans a4,
           b6.trans a6, b7.trans a7, b8.trans a8⟩

theorem insertChunks_spec (path_id : Nat) (chunks : List (List TokenTup)) :
    ∀ db : DB,
      (insertChunks db path_id chunks).contents =
        db.contents ++ chunkRows db.nextContentId path_id chunks ∧
      (insertChunks db path_id chunks).hashs = db.hashs ∧
      (insertChunks db path_id chunks).paths = db.paths ∧
      (insertChunks db path_id chunks).words = db.words ∧
      (insertChunks db path_id chunks).wordsPaths = db.wordsPaths ∧
      (insertChunks db path_id chunks).titles = db.titles ∧
      (insertChunks db path_id chunks).nextHashId = db.nextHashId ∧
      (insertChunks db path_id chunks).nextPathId = db.nextPathId ∧
      (insertChunks db path_id chunks).nextWordId = db.nextWordId ∧
      (insertChunks db path_id chunks).nextTitleId = db.nextTitleId := by
  induction chunks with
  | nil => intro db; simp [insertChunks, chunkRows]
  | cons c cs ih =>
    intro db
    obtain ⟨b0, b1, b2, b3, b4, b5, b6, b7, b8, b9⟩ :=
      ih { db with
            contents := db.contents ++
              [⟨db.nextContentId, zlib_compress (pickle_dumps c), path_id⟩],
            nextContentId := db.nextContentId + 1 }
    simp only [insertChunks]
    refine ⟨?_, b1, b2, b3, b4, b5, b6, b7, b8, b9⟩
    rw [b0]
    simp [chunkRows]

theorem store_content_chunks_spec (db : DB) (tt : List TokenTup) (path_id : Nat) :
    (store_content_chunks db tt path_id).contents =
      db.contents ++ chunkRows db.nextContentId path_id
        (chunksOf (if tt.length < 1000000 then 100000 else 5000) tt) ∧
    (store_content_chunks db tt path_id).hashs = db.hashs ∧
    (store_content_chunks db tt path_id).paths = db.paths ∧
    (store_content_chunks db tt path_id).words = db.words ∧
    (store_content_chunks db tt path_id).wordsPaths = db.wordsPaths ∧
    (store_content_chunks db tt path_id).titles = db.titles ∧
    (store_content_chunks db tt path_id).nextHashId = db.nextHashId ∧
    (store_content_chunks db tt path_id).nextPathId = db.nextPathId ∧
    (store_content_chunks db tt path_id).nextWordId = db.nextWordId ∧
    (store_content_chunks db tt path_id).nextTitleId = db.nextTitleId := by
  unfold store_content_chunks
  exact insertChunks_spec path_id _ db

theorem upsertWordPath_frame (db : DB) (p w c : Nat) :
    (upsertWordPath db p w c).hashs = db.hashs ∧
    (upsertWordPath db p w c).paths = db.paths ∧
    (upsertWordPath db p w c).contents = db.contents ∧
    (upsertWordPath db p w c).words = db.words ∧
    (upsertWordPath db p w c).titles = db.titles ∧
    (upsertWordPath db p w c).nextHashId = db.nextHashId ∧
    (upsertWordPath db p w c).nextPathId = db.nextPathId ∧
    (upsertWordPath db p w c).nextContentId = db.nextContentId ∧
    (upsertWordPath db p w c).nextWordId = db.nextWordId ∧
    (upsertWordPath db p w c).nextTitleId = db.nextTitleId := by
  unfold upsertWordPath
  by_cases h : db.wordsPaths.any (fun r => r.pathId = p && r.wordId = w) <;>
    simp [h]

theorem upsertWordPaths_frame (path_id : Nat) (bulk : List (Nat × Nat)) :
    ∀ db : DB,
      (upsertWordPaths db path_id bulk).hashs = db.hashs ∧
      (upsertWordPaths db path_id bulk).paths = db.paths ∧
      (upsertWordPaths db path_id bulk).contents = db.contents ∧
      (upsertWordPaths db path_id bulk).words = db.words ∧
      (upsertWordPaths db path_id bulk).titles = db.titles ∧
      (upsertWordPaths db path_id bulk).nextHashId = db.nextHashId ∧
      (upsertWordPaths db path_id bulk).nextPathId = db.nextPathId ∧
      (upsertWordPaths db path_id bulk).nextContentId = db.nextContentId ∧
      (upsertWordPaths db path_id bulk).nextWordId = db.nextWordId ∧
      (upsertWordPaths db path_id bulk).nextTitleId = db.nextTitleId := by
  induction bulk with
  | nil => intro db; simp [upsertWordPaths]
  | cons x rest ih =>
    intro db
    obtain ⟨a1, a2, a3, a4, a5, a6, a7, a8, a9, a10⟩ :=
      upsertWordPath_frame db path_id x.1 x.2
    obtain ⟨b1, b2, b3, b4, b5, b6, b7, b8, b9, b10⟩ :=
      ih (upsertWordPath db path_id x.1 x.2)
    simp only [upsertWordPaths]
    exact ⟨b1.trans a1, b2.trans a2, b3.trans a3, b4.trans a4, b5.trans a5,
           b6.trans a6, b7.trans a7, b8.trans a8, b9.trans a9, b10.trans a10⟩

theorem store_word_frequencies_frame (db : DB) (path_id : Nat)
    (wc : List (String × Nat)) :
    (store_word_frequencies db path_id wc).hashs = db.hashs ∧
    (store_word_frequencies db path_id wc).paths = db.paths ∧
    (store_word_frequencies db path_id wc).contents = db.contents ∧
    (store_word_frequencies db path_id wc).titles = db.titles ∧
    (store_word_frequencies db path_id wc).nextHashId = db.nextHashId ∧
    (store_word_frequencies db path_id wc).nextPathId = db.nextPathId ∧
    (store_word_frequencies db path_id wc).nextContentId = db.nextContentId ∧
    (store_word_frequencies db path_id wc).nextTitleId = db.nextTitleId := by
  unfold store_word_frequencies
  by_cases h : wc.isEmpty
  · simp [h]
  · simp only [h, Bool.false_eq_true, if_false]
    obtain ⟨a1, a2, a3, a4, a5, a6, a7, a8, a9⟩ := resolveWordIds_frame wc db
    obtain ⟨b1, b2, b3, b4, b5, b6, b7, b8, b9, b10⟩ :=
      upsertWordPaths_frame path_id (resolveWordIds db wc).1 (resolveWordIds db wc).2
    exact ⟨b1.trans a1, b2.trans a2, b3.trans a3, b5.trans a5,
           b6.trans a6, b7.trans a7, b8.trans a8, b10.trans a9⟩

theorem store_title_frame (db : DB) (ids : List Nat) (path_id : Nat)
    (pp : Option Nat) :
    (store_title db ids path_id pp).hashs = db.hashs ∧
    (store_title db ids path_id pp).paths = db.paths ∧
    (store_title db ids path_id pp).contents = db.contents ∧
    (store_title db ids path_id pp).words = db.words ∧
    (store_title db ids path_id pp).wordsPaths = db.wordsPaths ∧
    (store_title db ids path_id pp).nextHashId = db.nextHashId ∧
    (store_title db ids path_id pp).nextPathId = db.nextPathId ∧
    (store_title db ids path_id pp).nextContentId = db.nextContentId ∧
    (store_title db ids path_id pp).nextWordId = db.nextWordId := by
  unfold store_title
  by_cases h : ids.isEmpty <;> simp [h]

theorem store_title_pipeline_frame (db : DB) (title : String) (path_id : Nat)
    (pp : Option Nat) :
    (store_title_pipeline db title path_id pp).hashs = db.hashs ∧
    (store_title_pipeline db title path_id pp).paths = db.paths ∧
    (store_title_pipeline db title path_id pp).contents = db.contents ∧
    (store_title_pipeline db title path_id pp).wordsPaths = db.wordsPaths ∧
    (store_title_pipeline db title path_id pp).nextHashId = db.nextHashId ∧
    (store_title_pipeline db title path_id pp).nextPathId = db.nextPathId ∧
    (store_title_pipeline db title path_id pp).nextContentId = db.nextContentId := by
  unfold store_title_pipeline
  by_cases h : (extract_words title).isEmpty
  · simp [h]
  · simp only [h, Bool.false_eq_true, if_false]
    obtain ⟨a1, a2, a3, a4, a6, a7, a8⟩ :=
      resolveTitleWordIds_frame (extract_words title) db
    obtain ⟨b1, b2, b3, _, b5, b6, b7, b8, _⟩ :=
      store_title_frame (resolveTitleWordIds db (extract_words title)).2
        (resolveTitleWordIds db (extract_words title)).1 path_id pp
    exact ⟨b1.trans a1, b2.trans a2, b3.trans a3, b5.trans a4,
           b6.trans a6, b7.trans a7, b8.trans a8⟩

theorem store_content_pipeline_frame (db : DB) (text : String) (path_id : Nat) :
    (store_content_pipeline db text path_id).hashs = db.hashs ∧
    (store_content_pipeline db text path_id).paths = db.paths ∧
    (store_content_pipeline db text path_id).titles = db.titles ∧
    (store_content_pipeline db text path_id).nextHashId = db.nextHashId ∧
    (store_content_pipeline db text path_id).nextPathId = db.nextPathId ∧
    (store_content_pipeline db text path_id).nextTitleId = db.nextTitleId := by
  unfold store_content_pipeline
  by_cases h : (extract_words_with_punctuation text).isEmpty
  · simp [h]
  · simp only [h, Bool.false_eq_true, if_false]
    obtain ⟨e1, e2, _, _, e5, e6, e7, _, e9⟩ :=
      ensureWords_frame
        (pySet ((extract_words_with_punctuation text).map (fun t => t.1))) db
    obtain ⟨_, c2, c3, _, _, c6, c7, c8, _, c10⟩ :=
      store_content_chunks_spec
        (ensureWords db
          (pySet ((extract_words_with_punctuation text).map (fun t => t.1)))).2
        ((extract_words_with_punctuation text).map (fun t =>
          ((lookupWordId
              (ensureWords db
                (pySet ((extract_words_with_punctuation text).map
                  (fun t => t.1)))).1 t.1,
            none, none, none) : TokenTup)))
        path_id
    obtain ⟨f1, f2, _, f4, f5, f6, f7, f8⟩ :=
      store_word_frequencies_frame
        (store_content_chunks
          (ensureWords db
            (pySet ((extract_words_with_punctuation text).map (fun t => t.1)))).2
          ((extract_words_with_punctuation text).map (fun t =>
            ((lookupWordId
                (ensureWords db
                  (pySet ((extract_words_with_punctuation text).map
                    (fun t => t.1)))).1 t.1,
              none, none, none) : TokenTup)))
          path_id)
        path_id
        (pyCounter ((extract_words_with_punctuation text).map (fun t => t.1)))
    exact ⟨f1.trans (c2.trans e1), f2.trans (c3.trans e2),
           f4.trans (c6.trans e5), f5.trans (c7.trans e6),
           f6.trans (c8.trans e7), f8.trans (c10.trans e9)⟩

theorem update_file_status_spec (db : DB) (path_id : Nat) (status : String)
    (h : status = "Read" ∨ status = "Unread") :
    (update_file_status db path_id status).paths =
      db.paths.map (fun p =>
        if p.id = path_id then { p with fileStatus := status } else p) ∧
    (update_file_status db path_id status).hashs = db.hashs ∧
    (update_file_status db path_id status).contents = db.contents ∧
    (update_file_status db path_id status).words = db.words ∧
    (update_file_status db path_id status).wordsPaths = db.wordsPaths ∧
    (update_file_status db path_id status).titles = db.titles ∧
    (update_file_status db path_id status).nextHashId = db.nextHashId ∧
    (update_file_status db path_id status).nextPathId = db.nextPathId := by
  unfold update_file_status
  rcases h with h | h <;> simp [h]

theorem invalidSentinel_ne_empty {h : String} (hs : invalidSentinel h = false) :
    h ≠ "" := by
  intro he
  rw [he] at hs
  simp [invalidSentinel] at hs

/-- On a valid digest that is not a duplicate, `store_file_complete` runs the
whole workflow: hash insert, metadata insert with status `Unread`, content
and title persistence, status promotion, and a `SUCCESS` response carrying
the fresh path id. -/
theorem sfc_not_dup_eq (db : DB) (src side : Nat) (fi : FileInfo)
    (r : ContentVal) (pp : Option Nat) (hp : Option String) (fs : FS)
    (hsent : invalidSentinel fi.hash = false)
    (hdup : (check_duplicate db fi.hash src side).1 = false) :
    store_file_complete db src side fi r pp hp fs =
      (({ result := .success,
          pathId := some (store_hash db fi.hash src side).2.nextPathId }),
       sfcSuccessState db src side fi r pp hp) := by
  have hne : fi.hash ≠ "" := invalidSentinel_ne_empty hsent
  unfold store_file_complete sfcSuccessState sfcTitleStep sfcContentStep sfcMeta
    sfcFileInfo
  simp only [hsent, Bool.false_eq_true, if_false, if_neg hne, hdup]
  cases r with
  | notDict => simp [hasReadableContent, store_metadata]
  | someDict he t s tx =>
    cases he with
    | true => simp [hasReadableContent, store_metadata]
    | false =>
      by_cases hcond : tx ≠ "" ∧ 0 < (pyStrip tx).length
      · simp only [extract_text_from_content, if_pos hcond, hasReadableContent,
          Bool.not_false, Bool.true_and, decide_eq_true_eq]
        simp [hcond.1, hcond.2, store_metadata]
      · simp only [extract_text_from_content, if_neg hcond, hasReadableContent]
        have hb : (decide (tx ≠ "") && decide (0 < (pyStrip tx).length)) = false := by
          by_cases h1 : tx = ""
          · simp [h1]
          · have h2 : ¬ 0 < (pyStrip tx).length := by
              rcases not_and_or.mp hcond with h | h
              · exact absurd (not_not.mp h) h1
              · exact h
            simp [h2]
        simp [hb, hcond, store_metadata]

theorem pathMaxFold_some (l : List PathRow) :
    ∀ a : PathRow,
      ∃ q, l.foldl (fun acc p =>
          match acc with
          | none => some p
          | some q => if q.id < p.id then some p else some q) (some a) = some q ∧
        (q ∈ l ∨ q = a) ∧ a.id ≤ q.id ∧ ∀ r ∈ l, r.id ≤ q.id := by
  induction l with
  | nil => intro a; exact ⟨a, rfl, Or.inr rfl, le_rfl, by simp⟩
  | cons p ps ih =>
    intro a
    by_cases hlt : a.id < p.id
    · obtain ⟨q, hq, hmem, hle, hall⟩ := ih p
      refine ⟨q, ?_, ?_, by omega, ?_⟩
      · simpa [hlt] using hq
      · rcases hmem with h | h
        · exact Or.inl (List.mem_cons_of_mem p h)
        · exact Or.inl (h ▸ List.mem_cons_self p ps)
      · intro r hr
        rcases List.mem_cons.mp hr with h | h
        · subst h; omega
        · exact hall r h
    · obtain ⟨q, hq, hmem, hle, hall⟩ := ih a
      refine ⟨q, ?_, ?_, hle, ?_⟩
      · simpa [hlt] using hq
      · rcases hmem with h | h
        · exact Or.inl (List.mem_cons_of_mem p h)
        · exact Or.inr h
      · intro r hr
        rcases List.mem_cons.mp hr with h | h
        · subst h; omega
        · exact hall r h

theorem newestPathFor_spec (db : DB) (hid : Nat) :
    (newestPathFor db hid = none → ∀ p ∈ db.paths, p.hashId ≠ hid) ∧
    (∀ q, newestPathFor db hid = some q → q ∈ db.paths ∧ q.hashId = hid ∧
      ∀ r ∈ db.paths, r.hashId = hid → r.id ≤ q.id) := by
  unfold newestPathFor
  cases hfilter : db.paths.filter (fun p => p.hashId = hid) with
  | nil =>
    constructor
    · intro _ p hp hpid
      have : p ∈ db.paths.filter (fun p => p.hashId = hid) :=
        List.mem_filter.mpr ⟨hp, by simpa using hpid⟩
      simp [hfilter] at this
    · intro q hq
      simp [List.foldl_nil] at hq
  | cons p ps =>
    have hfold := pathMaxFold_some ps p
    obtain ⟨q, hq, hmem, hle, hall⟩ := hfold
    constructor
    · intro hnone
      rw [List.foldl_cons] at hnone
      simp only [] at hnone
      rw [hq] at hnone
      exact absurd hnone (by simp)
    · intro q' hq'
      rw [List.foldl_cons] at hq'
      simp only [] at hq'
      rw [hq] at hq'
      obtain rfl : q = q' := by injection hq'
      have hqmem : q ∈ db.paths.filter (fun p => p.hashId = hid) := by
        rw [hfilter]
        rcases hmem with h | h
        · exact List.mem_cons_of_mem p h
        · exact h ▸ List.mem_cons_self p ps
      have hq1 := List.mem_filter.mp hqmem
      refine ⟨hq1.1, by simpa using hq1.2, ?_⟩
      intro r hr hrid
      have : r ∈ db.paths.filter (fun p => p.hashId = hid) :=
        List.mem_filter.mpr ⟨hr, by simpa using hrid⟩
      rw [hfilter] at this
      rcases List.mem_cons.mp this with h | h
      · subst h; omega
      · exact hall r h

theorem check_duplicate_eq (db : DB) (d : String) (src side : Nat)
    (hsent : invalidSentinel d = false) :
    check_duplicate db d src side =
      (match findHashRow db d src side with
       | none => (false, none)
       | some h₀ =>
         match newestPathFor db h₀.id with
         | some p => (true, some p.id)
         | none => (false, none)) := by
  unfold check_duplicate
  rw [hsent]
  simp

theorem check_duplicate_true_of (db : DB) (d : String) (src side : Nat)
    (hsent : invalidSentinel d = false) (h₀ : HashRow) (q : PathRow)
    (hfind : findHashRow db d src side = some h₀)
    (hq : newestPathFor db h₀.id = some q) :
    check_duplicate db d src side = (true, some q.id) := by
  unfold check_duplicate
  rw [hsent]
  simp only [Bool.false_eq_true, if_false, hfind, hq]

theorem check_duplicate_false_cases (db : DB) (d : String) (src side : Nat)
    (hsent : invalidSentinel d = false)
    (h : (check_duplicate db d src side).1 = false) :
    findHashRow db d src side = none ∨
    (∃ h₀, findHashRow db d src side = some h₀ ∧ newestPathFor db h₀.id = none) := by
  cases hfind : findHashRow db d src side with
  | none => exact Or.inl rfl
  | some h₀ =>
    cases hnew : newestPathFor db h₀.id with
    | none => exact Or.inr ⟨h₀, rfl, hnew⟩
    | some p =>
      rw [check_duplicate_true_of db d src side hsent h₀ p hfind hnew] at h
      simp at h

theorem store_hash_cases (db : DB) (d : String) (src side : Nat) :
    (∃ h₀, findHashRow db d src side = some h₀ ∧
       store_hash db d src side = (h₀.id, db)) ∨
    (findHashRow db d src side = none ∧
       store_hash db d src side =
         (db.nextHashId,
          { db with
              hashs := db.hashs ++ [⟨db.nextHashId, d, src, side⟩],
              nextHashId := db.nextHashId + 1 })) := by
  unfold store_hash
  cases hfind : findHashRow db d src side with
  | none => exact Or.inr ⟨rfl, rfl⟩
  | some h₀ => exact Or.inl ⟨h₀, rfl, rfl⟩

/-- A duplicate digest makes `store_file_complete` return `DUPLICATE` with
the existing path id, without touching the store. -/
theorem sfc_dup_eq (db : DB) (src side : Nat) (fi : FileInfo) (r : ContentVal)
    (pp : Option Nat) (hp : Option String) (fs : FS)
    (hsent : invalidSentinel fi.hash = false)
    (hdup : (check_duplicate db fi.hash src side).1 = true) :
    store_file_complete db src side fi r pp hp fs =
      ({ result := .duplicate,
         duplicatePathId := (check_duplicate db fi.hash src side).2 }, db) := by
  have hne := invalidSentinel_ne_empty hsent
  unfold store_file_complete
  simp [hsent, hne, hdup]

theorem sfcMeta_eq (db : DB) (src side : Nat) (fi : FileInfo) (hp : Option String) :
    sfcMeta db src side fi hp =
      ((store_hash db fi.hash src side).2.nextPathId,
       { (store_hash db fi.hash src side).2 with
           paths := (store_hash db fi.hash src side).2.paths ++
             [⟨(store_hash db fi.hash src side).2.nextPathId,
               (sfcFileInfo fi hp).name.take 500,
               (sfcFileInfo fi hp).path.take 500, (sfcFileInfo fi hp).sizeBytes,
               (sfcFileInfo fi hp).fileType.take 100, "Unread",
               (store_hash db fi.hash src side).1⟩],
           nextPathId := (store_hash db fi.hash src side).2.nextPathId + 1 }) := by
  unfold sfcMeta
  rw [store_metadata_eq]

theorem sfcContentStep_frame (r : ContentVal) (smdb : DB) (pid : Nat) :
    (sfcContentStep r smdb pid).hashs = smdb.hashs ∧
    (sfcContentStep r smdb pid).paths = smdb.paths := by
  unfold sfcContentStep
  split
  · exact ⟨(store_content_pipeline_frame smdb _ pid).1,
      (store_content_pipeline_frame smdb _ pid).2.1⟩
  · exact ⟨rfl, rfl⟩

theorem sfcTitleStep_frame (r : ContentVal) (fi : FileInfo) (hp : Option String)
    (db₃ : DB) (pid : Nat) (pp : Option Nat) :
    (sfcTitleStep r fi hp db₃ pid pp).hashs = db₃.hashs ∧
    (sfcTitleStep r fi hp db₃ pid pp).paths = db₃.paths := by
  unfold sfcTitleStep
  split
  · exact ⟨(store_title_pipeline_frame db₃ _ pid pp).1,
      (store_title_pipeline_frame db₃ _ pid pp).2.1⟩
  · exact ⟨rfl, rfl⟩

theorem sfcSuccessState_hashs (db : DB) (src side : Nat) (fi : FileInfo)
    (r : ContentVal) (pp : Option Nat) (hp : Option String) :
    (sfcSuccessState db src side fi r pp hp).hashs =
      (store_hash db fi.hash src side).2.hashs := by
  unfold sfcSuccessState
  have h5 := (update_file_status_spec
    (sfcTitleStep r fi hp
      (sfcContentStep r (sfcMeta db src side fi hp).2 (sfcMeta db src side fi hp).1)
      (sfcMeta db src side fi hp).1 pp)
    (sfcMeta db src side fi hp).1
    (if hasReadableContent r then "Read" else "Unread")
    (by split <;> simp)).2.1
  rw [h5,
    (sfcTitleStep_frame r fi hp _ (sfcMeta db src side fi hp).1 pp).1,
    (sfcContentStep_frame r (sfcMeta db src side fi hp).2
      (sfcMeta db src side fi hp).1).1,
    sfcMeta_eq]

/-- The row inserted for the file, with the final status applied. -/
theorem sfcSuccessState_paths (db : DB) (src side : Nat) (fi : FileInfo)
    (r : ContentVal) (pp : Option Nat) (hp : Option String) :
    (sfcSuccessState db src side fi r pp hp).paths =
      ((store_hash db fi.hash src side).2.paths ++
        [(⟨(store_hash db fi.hash src side).2.nextPathId,
          (sfcFileInfo fi hp).name.take 500, (sfcFileInfo fi hp).path.take 500,
          (sfcFileInfo fi hp).sizeBytes, (sfcFileInfo fi hp).fileType.take 100,
          "Unread", (store_hash db fi.hash src side).1⟩ : PathRow)]).map
        (fun p =>
          if p.id = (store_hash db fi.hash src side).2.nextPathId then
            { p with fileStatus :=
                if hasReadableContent r then "Read" else "Unread" }
          else p) := by
  unfold sfcSuccessState
  have h5 := (update_file_status_spec
    (sfcTitleStep r fi hp
      (sfcContentStep r (sfcMeta db src side fi hp).2 (sfcMeta db src side fi hp).1)
      (sfcMeta db src side fi hp).1 pp)
    (sfcMeta db src side fi hp).1
    (if hasReadableContent r then "Read" else "Unread")
    (by split <;> simp)).1
  rw [h5,
    (sfcTitleStep_frame r fi hp _ (sfcMeta db src side fi hp).1 pp).2,
    (sfcContentStep_frame r (sfcMeta db src side fi hp).2
      (sfcMeta db src side fi hp).1).2]
  have h1 : (sfcMeta db src side fi hp).1 =
      (store_hash db fi.hash src side).2.nextPathId := by
    rw [sfcMeta_eq]
  have h2 : (sfcMeta db src side fi hp).2.paths =
      (store_hash db fi.hash src side).2.paths ++
        [(⟨(store_hash db fi.hash src side).2.nextPathId,
          (sfcFileInfo fi hp).name.take 500, (sfcFileInfo fi hp).path.take 500,
          (sfcFileInfo fi hp).sizeBytes, (sfcFileInfo fi hp).fileType.take 100,
          "Unread", (store_hash db fi.hash src side).1⟩ : PathRow)] := by
    rw [sfcMeta_eq]
  rw [h1, h2]

theorem newestPathFor_single (st : DB) (hid : Nat) (P' : PathRow)
    (hfilter : st.paths.filter (fun p => p.hashId = hid) = [P']) :
    newestPathFor st hid = some P' := by
  unfold newestPathFor
  rw [hfilter]
  rfl

theorem filter_paths_upd (l : List PathRow) (P : PathRow) (pid : Nat)
    (status : String) (hid : Nat)
    (hold : ∀ p ∈ l, p.hashId ≠ hid) (hP : P.hashId = hid) :
    ((l ++ [P]).map (fun p =>
        if p.id = pid then { p with fileStatus := status } else p)).filter
      (fun p => p.hashId = hid) =
      [if P.id = pid then { P with fileStatus := status } else P] := by
  rw [List.map_append, List.filter_append]
  have h1 : (l.map (fun p =>
      if p.id = pid then { p with fileStatus := status } else p)).filter
        (fun p => decide (p.hashId = hid)) = [] := by
    rw [List.filter_eq_nil_iff]
    intro a ha
    obtain ⟨p, hp, rfl⟩ := List.mem_map.mp ha
    have hpre : (if p.id = pid then { p with fileStatus := status } else p).hashId
        = p.hashId := by split <;> rfl
    simp [hpre, hold p hp]
  rw [h1, List.nil_append, List.map_cons, List.map_nil]
  have hup : (if P.id = pid then { P with fileStatus := status } else P).hashId
      = hid := by split <;> simpa using hP
  simp [List.filter_cons, hup]

theorem findHashRow_congr (st db : DB) (d : String) (src side : Nat)
    (h : st.hashs = db.hashs) :
    findHashRow st d src side = findHashRow db d src side := by
  unfold findHashRow
  rw [h]

/-- After a non-duplicate run, `check_duplicate` on the resulting state finds
the digest and reports the freshly inserted path id: the run's own path id. -/
theorem sfc_success_dup_after (db : DB) (src side : Nat) (fi : FileInfo)
    (r : ContentVal) (pp : Option Nat) (hp : Option String) (fs : FS)
    (hwf : dbWF db) (hsent : invalidSentinel fi.hash = false)
    (hdup : (check_duplicate db fi.hash src side).1 = false) :
    check_duplicate (store_file_complete db src side fi r pp hp fs).2
        fi.hash src side = (true, some db.nextPathId) ∧
    (store_file_complete db src side fi r pp hp fs).1.pathId =
      some db.nextPathId := by
  have hnp : (store_hash db fi.hash src side).2.nextPathId = db.nextPathId :=
    (store_hash_frame db fi.hash src side).2.2.2.2.2.1
  rw [sfc_not_dup_eq db src side fi r pp hp fs hsent hdup]
  refine ⟨?_, by simp [hnp]⟩
  have hpaths := sfcSuccessState_paths db src side fi r pp hp
  have hhashs := sfcSuccessState_hashs db src side fi r pp hp
  set status := (if hasReadableContent r then "Read" else "Unread") with hstatus
  set pid := (store_hash db fi.hash src side).2.nextPathId with hpid
  set P : PathRow := ⟨pid, (sfcFileInfo fi hp).name.take 500,
    (sfcFileInfo fi hp).path.take 500, (sfcFileInfo fi hp).sizeBytes,
    (sfcFileInfo fi hp).fileType.take 100, "Unread",
    (store_hash db fi.hash src side).1⟩ with hPdef
  set st := sfcSuccessState db src side fi r pp hp with hst
  set Q : PathRow := (if P.id = pid then { P with fileStatus := status } else P)
    with hQdef
  have hQid : Q.id = pid := by
    rw [hQdef]
    split <;> rfl
  rcases store_hash_cases db fi.hash src side with ⟨h₀, hfind, hsh⟩ | ⟨hfind, hsh⟩
  · -- the hash row pre-existed as an orphan
    have hfound : findHashRow st fi.hash src side = some h₀ := by
      rw [findHashRow_congr st db fi.hash src side (by rw [hhashs, hsh])]
      exact hfind
    have hnone : newestPathFor db h₀.id = none := by
      rcases check_duplicate_false_cases db fi.hash src side hsent hdup with
        h | ⟨h₀', hfind', hn⟩
      · rw [hfind] at h
        exact absurd h (by simp)
      · rw [hfind] at hfind'
        injection hfind' with he
        rw [he]
        exact hn
    have hold : ∀ p ∈ db.paths, p.hashId ≠ h₀.id :=
      (newestPathFor_spec db h₀.id).1 hnone
    have hPhash : P.hashId = h₀.id := by
      rw [hPdef]
      show (store_hash db fi.hash src side).1 = h₀.id
      rw [hsh]
    have hfilter : st.paths.filter (fun p => p.hashId = h₀.id) = [Q] := by
      rw [hst, hpaths,
        show (store_hash db fi.hash src side).2.paths = db.paths by rw [hsh]]
      exact filter_paths_upd db.paths P pid status h₀.id hold hPhash
    have hnew : newestPathFor st h₀.id = some Q :=
      newestPathFor_single st h₀.id Q hfilter
    rw [check_duplicate_true_of st fi.hash src side hsent h₀ Q hfound hnew,
      hQid, hnp]
  · -- the hash row is fresh
    have hhashs' : st.hashs = db.hashs ++ [⟨db.nextHashId, fi.hash, src, side⟩] := by
      rw [hst, hhashs, hsh]
    have hfound : findHashRow st fi.hash src side =
        some ⟨db.nextHashId, fi.hash, src, side⟩ := by
      unfold findHashRow
      rw [hhashs', List.find?_append]
      have h1 : db.hashs.find? (fun h =>
          h.hash = fi.hash && h.sourceId = src && h.sideId = side) = none := hfind
      rw [h1]
      simp
    have hold : ∀ p ∈ db.paths, p.hashId ≠ db.nextHashId := by
      intro p hpmem
      have := hwf.2.2.2.1 p hpmem
      omega
    have hPhash : P.hashId = db.nextHashId := by
      rw [hPdef]
      show (store_hash db fi.hash src side).1 = db.nextHashId
      rw [hsh]
    have hfilter : st.paths.filter (fun p => p.hashId = db.nextHashId) = [Q] := by
      rw [hst, hpaths,
        show (store_hash db fi.hash src side).2.paths = db.paths by rw [hsh]]
      exact filter_paths_upd db.paths P pid status db.nextHashId hold hPhash
    have hnew : newestPathFor st db.nextHashId = some Q :=
      newestPathFor_single st db.nextHashId Q hfilter
    rw [check_duplicate_true_of st fi.hash src side hsent
      ⟨db.nextHashId, fi.hash, src, side⟩ Q hfound hnew, hQid, hnp]

/-- C1: Ingestion is idempotent per (content, source, side).  After a call to
`store_file_complete` that returned `SUCCESS` with some `path_id` for a file
with digest `d` under fixed `source_id` and `side_id`, a second call for a
file with the same digest and the same source and side returns a `DUPLICATE`
response carrying that same `path_id`, and leaves the store unchanged (no
new Hash, Path, Content, Word, or WordPath rows). -/
theorem c1_ingestion_idempotent (db : DB) (src side : Nat) (fi₁ fi₂ : FileInfo)
    (r₁ r₂ : ContentVal) (pp₁ pp₂ : Option Nat) (hp₁ hp₂ : Option String)
    (fs₁ fs₂ : FS) (d : String) (pid : Nat)
    (hwf : dbWF db) (hd : invalidSentinel d = false)
    (h₁ : fi₁.hash = d) (h₂ : fi₂.hash = d)
    (hres : (store_file_complete db src side fi₁ r₁ pp₁ hp₁ fs₁).1.result =
      StorageResult.success)
    (hpid : (store_file_complete db src side fi₁ r₁ pp₁ hp₁ fs₁).1.pathId =
      some pid) :
    (store_file_complete (store_file_complete db src side fi₁ r₁ pp₁ hp₁ fs₁).2
        src side fi₂ r₂ pp₂ hp₂ fs₂).1.result = StorageResult.duplicate ∧
    (store_file_complete (store_file_complete db src side fi₁ r₁ pp₁ hp₁ fs₁).2
        src side fi₂ r₂ pp₂ hp₂ fs₂).1.duplicatePathId = some pid ∧
    (store_file_complete (store_file_complete db src side fi₁ r₁ pp₁ hp₁ fs₁).2
        src side fi₂ r₂ pp₂ hp₂ fs₂).2 =
      (store_file_complete db src side fi₁ r₁ pp₁ hp₁ fs₁).2 := by
  have hs₁ : invalidSentinel fi₁.hash = false := by rw [h₁]; exact hd
  have hs₂ : invalidSentinel fi₂.hash = false := by rw [h₂]; exact hd
  have hdup : (check_duplicate db fi₁.hash src side).1 = false := by
    cases hb : (check_duplicate db fi₁.hash src side).1 with
    | false => rfl
    | true =>
      rw [sfc_dup_eq db src side fi₁ r₁ pp₁ hp₁ fs₁ hs₁ hb] at hres
      simp at hres
  obtain ⟨hcd, hpid'⟩ :=
    sfc_success_dup_after db src side fi₁ r₁ pp₁ hp₁ fs₁ hwf hs₁ hdup
  have hpp : db.nextPathId = pid := by
    rw [hpid] at hpid'
    injection hpid' with h
    exact h.symm
  have hcd₂ : check_duplicate
      (store_file_complete db src side fi₁ r₁ pp₁ hp₁ fs₁).2 fi₂.hash src side =
      (true, some pid) := by
    rw [h₂, ← h₁, hcd, hpp]
  rw [sfc_dup_eq (store_file_complete db src side fi₁ r₁ pp₁ hp₁ fs₁).2
    src side fi₂ r₂ pp₂ hp₂ fs₂ hs₂ (by rw [hcd₂])]
  simp [hcd₂]

theorem c1_witness :
    (store_file_complete (store_file_complete emptyDB 1 1 fiW
        (.someDict false none none "hi") none none fs0).2
      1 1 fiW (.someDict false none none "hi") none none fs0).1.result =
        StorageResult.duplicate ∧
    (store_file_complete (store_file_complete emptyDB 1 1 fiW
        (.someDict false none none "hi") none none fs0).2
      1 1 fiW (.someDict false none none "hi") none none fs0).1.duplicatePathId =
        some 1 ∧
    (store_file_complete (store_file_complete emptyDB 1 1 fiW
        (.someDict false none none "hi") none none fs0).2
      1 1 fiW (.someDict false none none "hi") none none fs0).2 =
      (store_file_complete emptyDB 1 1 fiW
        (.someDict false none none "hi") none none fs0).2 :=
  c1_ingestion_idempotent emptyDB 1 1 fiW fiW
    (.someDict false none none "hi") (.someDict false none none "hi")
    none none none none fs0 fs0 d64 1
    (by decide) (by decide) (by decide) (by decide) (by decide) (by decide)

theorem chunkRows_mem (path_id : Nat) (cs : List (List TokenTup)) :
    ∀ start : Nat, ∀ r ∈ chunkRows start path_id cs,
      r.pathId = path_id ∧ start ≤ r.id := by
  induction cs with
  | nil => intro start r h; simp [chunkRows] at h
  | cons c rest ih =>
    intro start r h
    simp only [chunkRows] at h
    rcases List.mem_cons.mp h with h | h
    · subst h
      exact ⟨rfl, le_rfl⟩
    · have := ih (start + 1) r h
      exact ⟨this.1, by omega⟩

theorem chunkRows_pairwise (path_id : Nat) (cs : List (List TokenTup)) :
    ∀ start : Nat, (chunkRows start path_id cs).Pairwise (fun a b => a.id < b.id) := by
  induction cs with
  | nil => intro start; simp [chunkRows]
  | cons c rest ih =>
    intro start
    simp only [chunkRows]
    refine List.Pairwise.cons ?_ (ih (start + 1))
    intro r hr
    have := (chunkRows_mem path_id rest (start + 1) r hr).2
    simpa using by omega

theorem chunkRows_decode (path_id : Nat) (cs : List (List TokenTup)) :
    ∀ start : Nat,
      (chunkRows start path_id cs).flatMap (fun r =>
        if r.contentData.isEmpty then []
        else pickle_loads (zlib_decompress r.contentData)) = cs.flatten := by
  induction cs with
  | nil => intro start; simp [chunkRows]
  | cons c rest ih =>
    intro start
    simp only [chunkRows, List.flatMap_cons, List.flatten_cons]
    rw [ih (start + 1)]
    congr 1
    have hne : (zlib_compress (pickle_dumps c)).isEmpty = false := by
      simp [zlib_compress, List.isEmpty]
    simp only [hne, Bool.false_eq_true, if_false, zlib_roundtrip,
      pickle_loads_dumps]

theorem retrieve_congr (db₁ db₂ : DB) (path_id : Nat)
    (h : db₁.contents = db₂.contents) :
    retrieve_content db₁ path_id = retrieve_content db₂ path_id := by
  unfold retrieve_content
  rw [h]

/-- The round trip at the heart of C5: storing a token-tuple list for a path
with no prior Content rows and retrieving it gives back the list. -/
theorem retrieve_store_roundtrip (db : DB) (tt : List TokenTup) (path_id : Nat)
    (hfresh : db.contents.filter (fun r => r.pathId = path_id) = []) :
    retrieve_content (store_content_chunks db tt path_id) path_id = tt := by
  have hcs : (if tt.length < 1000000 then 100000 else 5000) ≠ 0 := by
    split <;> omega
  obtain ⟨hc, -⟩ := store_content_chunks_spec db tt path_id
  unfold retrieve_content
  rw [hc, List.filter_append, hfresh, List.nil_append]
  have hself : (chunkRows db.nextContentId path_id
      (chunksOf (if tt.length < 1000000 then 100000 else 5000) tt)).filter
        (fun r => decide (r.pathId = path_id)) =
      chunkRows db.nextContentId path_id
        (chunksOf (if tt.length < 1000000 then 100000 else 5000) tt) := by
    apply List.filter_eq_self.mpr
    intro r hr
    simp [(chunkRows_mem path_id _ db.nextContentId r hr).1]
  rw [hself, sortContentsById_sorted _ (chunkRows_pairwise path_id _ db.nextContentId),
    chunkRows_decode path_id _ db.nextContentId, chunksOf_flatten _ hcs]

/-- C5: retrieving the content of a fresh `path_id` after
`store_content_chunks` returns exactly the stored token-tuple list: chunks
are decompressed and concatenated in insertion order, preserving every tuple
and the document order. -/
theorem c5_content_roundtrip (db : DB) (token_tuples : List TokenTup)
    (path_id : Nat)
    (hfresh : db.contents.filter (fun r => r.pathId = path_id) = []) :
    retrieve_content (store_content_chunks db token_tuples path_id) path_id =
      token_tuples :=
  retrieve_store_roundtrip db token_tuples path_id hfresh

theorem c5_witness :
    retrieve_content
      (store_content_chunks emptyDB
        [(1, none, none, none), (2, some 3, none, some 4)] 5) 5 =
      [(1, none, none, none), (2, some 3, none, some 4)] :=
  c5_content_roundtrip emptyDB
    [(1, none, none, none), (2, some 3, none, some 4)] 5 (by decide)

theorem mem_pySet {l : List String} {w : String} : w ∈ pySet l ↔ w ∈ l := by
  induction l with
  | nil => simp [pySet]
  | cons x xs ih =>
    simp only [pySet, List.mem_cons]
    constructor
    · rintro (h | h)
      · exact Or.inl h
      · exact Or.inr (ih.mp (List.mem_of_mem_filter h))
    · rintro (h | h)
      · exact Or.inl h
      · by_cases hx : w = x
        · exact Or.inl hx
        · exact Or.inr (List.mem_filter.mpr ⟨ih.mpr h, by simpa using hx⟩)

theorem pySet_nodup (l : List String) : (pySet l).Nodup := by
  induction l with
  | nil => simp [pySet]
  | cons x xs ih =>
    simp only [pySet]
    refine List.Nodup.cons ?_ (List.Nodup.filter _ ih)
    intro hx
    have := List.mem_filter.mp hx
    simp at this

theorem pySet_ne_nil {l : List String} (h : l ≠ []) : pySet l ≠ [] := by
  cases l with
  | nil => exact absurd rfl h
  | cons x xs => simp [pySet]

theorem toNat_ofNat_valid {n : Nat} (h : n.isValidChar) :
    (Char.ofNat n).toNat = n := by
  unfold Char.ofNat
  rw [dif_pos h]
  have hlt : n < 2 ^ 32 := by
    rcases h with h | ⟨h1, h2⟩ <;> omega
  simp [Char.ofNatAux, Char.toNat, UInt32.toNat, BitVec.toNat_ofNat,
    Nat.mod_eq_of_lt hlt]

theorem toLower_toLower (c : Char) : c.toLower.toLower = c.toLower := by
  simp only [Char.toLower]
  by_cases h : c.toNat ≥ 65 ∧ c.toNat ≤ 90
  · simp only [if_pos h]
    have hn : (Char.ofNat (c.toNat + 32)).toNat = c.toNat + 32 :=
      toNat_ofNat_valid (Or.inl (by omega))
    rw [if_neg (by rw [hn]; omega)]
  · simp only [if_neg h]

theorem toLower_clean {c : Char} (h : sanitizeKeep c = true) (h0 : c.toNat ≠ 0) :
    sanitizeKeep c.toLower = true ∧ c.toLower.toNat ≠ 0 := by
  simp only [Char.toLower]
  by_cases hc : c.toNat ≥ 65 ∧ c.toNat ≤ 90
  · simp only [if_pos hc]
    have hn : (Char.ofNat (c.toNat + 32)).toNat = c.toNat + 32 :=
      toNat_ofNat_valid (Or.inl (by omega))
    constructor
    · simp only [sanitizeKeep, hn]
      simp
    · rw [hn]
      omega
  · simp only [if_neg hc]
    exact ⟨h, h0⟩

theorem pyLowerL_idem (w : List Char) : pyLowerL (pyLowerL w) = pyLowerL w := by
  unfold pyLowerL
  rw [List.map_map]
  exact List.map_congr_left (fun c _ => toLower_toLower c)

theorem mem_slice {s : List Char} {a b : Nat} {c : Char}
    (h : c ∈ slice s a b) : c ∈ s := by
  unfold slice at h
  exact List.mem_of_mem_drop (List.mem_of_mem_take h)

theorem extract_regular_words_go_shape (text : List Char)
    (ms : List (Nat × Nat)) :
    ∀ pos, ∀ tok ∈ extract_regular_words_go text ms pos,
      ∃ w, tok.1 = String.mk (pyLowerL w) ∧ ∀ c ∈ w, c ∈ text := by
  induction ms with
  | nil => intro pos tok h; simp [extract_regular_words_go] at h
  | cons m rest ih =>
    intro pos tok h
    obtain ⟨s, e⟩ := m
    simp only [extract_regular_words_go] at h
    rcases List.mem_cons.mp h with h | h
    · subst h
      exact ⟨slice text s e, rfl, fun c hc => mem_slice hc⟩
    · exact ih e tok h

theorem extract_regular_words_shape (text : List Char) :
    ∀ tok ∈ extract_regular_words text,
      ∃ w, tok.1 = String.mk (pyLowerL w) ∧ ∀ c ∈ w, c ∈ text :=
  fun tok h => extract_regular_words_go_shape text _ 0 tok h

theorem insertEnt_mem {x e : Ent} {l : List Ent} (h : x ∈ insertEnt e l) :
    x = e ∨ x ∈ l := by
  induction l with
  | nil => simpa [insertEnt] using h
  | cons y ys ih =>
    simp only [insertEnt] at h
    split at h
    · rcases List.mem_cons.mp h with h | h
      · exact Or.inl h
      · exact Or.inr h
    · rcases List.mem_cons.mp h with h | h
      · exact Or.inr (h ▸ List.mem_cons_self _ _)
      · rcases ih h with h | h
        · exact Or.inl h
        · exact Or.inr (List.mem_cons_of_mem _ h)

theorem sortByStart_mem {l : List Ent} {x : Ent} (h : x ∈ sortByStart l) :
    x ∈ l := by
  unfold sortByStart at h
  suffices H : ∀ (l : List Ent) (acc : List Ent),
      x ∈ l.foldl (fun a e => insertEnt e a) acc → x ∈ acc ∨ x ∈ l by
    rcases H l [] h with h | h
    · simp at h
    · exact h
  intro l
  induction l with
  | nil => intro acc h; exact Or.inl h
  | cons e es ih =>
    intro acc h
    rcases ih (insertEnt e acc) h with h | h
    · rcases insertEnt_mem h with h | h
      · exact Or.inr (h ▸ List.mem_cons_self _ _)
      · exact Or.inl h
    · exact Or.inr (List.mem_cons_of_mem _ h)

theorem remove_overlaps_go_mem {x : Ent} :
    ∀ (es acc : List Ent) (lastEnd : Int),
      x ∈ remove_overlaps_go es acc lastEnd → x ∈ es ∨ x ∈ acc := by
  intro es
  induction es with
  | nil => intro acc lastEnd h; exact Or.inr h
  | cons e rest ih =>
    intro acc lastEnd h
    simp only [remove_overlaps_go] at h
    by_cases hlt : (e.start : Int) < lastEnd
    · rw [if_pos hlt] at h
      rcases hlast : acc.getLast? with _ | f <;> rw [hlast] at h <;> dsimp only at h
      · rcases ih acc lastEnd h with h | h
        · exact Or.inl (List.mem_cons_of_mem _ h)
        · exact Or.inr h
      · by_cases hsz : f.stop - f.start < e.stop - e.start
        · rw [if_pos hsz] at h
          rcases ih (acc.dropLast ++ [e]) (e.stop : Int) h with h | h
          · exact Or.inl (List.mem_cons_of_mem _ h)
          · rcases List.mem_append.mp h with h | h
            · exact Or.inr ((List.dropLast_sublist acc).subset h)
            · simp only [List.mem_singleton] at h
              exact Or.inl (h ▸ List.mem_cons_self _ _)
        · rw [if_neg hsz] at h
          rcases ih acc lastEnd h with h | h
          · exact Or.inl (List.mem_cons_of_mem _ h)
          · exact Or.inr h
    · rw [if_neg hlt] at h
      rcases ih (acc ++ [e]) (e.stop : Int) h with h | h
      · exact Or.inl (List.mem_cons_of_mem _ h)
      · rcases List.mem_append.mp h with h | h
        · exact Or.inr h
        · simp only [List.mem_singleton] at h
          exact Or.inl (h ▸ List.mem_cons_self _ _)

theorem remove_overlaps_mem {x : Ent} {l : List Ent}
    (h : x ∈ remove_overlaps l) : x ∈ l := by
  rcases remove_overlaps_go_mem l [] (-1) h with h | h
  · exact h
  · simp at h

theorem collectEntities_text (text : List Char) :
    ∀ e ∈ collectEntities text, ∀ c ∈ e.text, c ∈ text := by
  intro e he c hc
  unfold collectEntities at he
  obtain ⟨re, _, hm⟩ := List.mem_flatMap.mp he
  obtain ⟨m, _, hrfl⟩ := List.mem_map.mp hm
  rw [← hrfl] at hc
  exact mem_slice hc

theorem find?_append_some {p : α → Bool} {l₁ : List α} {r : α} (l₂ : List α)
    (h : l₁.find? p = some r) : (l₁ ++ l₂).find? p = some r := by
  induction l₁ with
  | nil => simp at h
  | cons x xs ih =>
    cases hp : p x
    · rw [List.find?_cons_of_neg _ (by simp [hp])] at h
      rw [show (x :: xs ++ l₂) = x :: (xs ++ l₂) from rfl,
        List.find?_cons_of_neg _ (by simp [hp])]
      exact ih h
    · rw [List.find?_cons_of_pos _ (by simp [hp])] at h
      rw [show (x :: xs ++ l₂) = x :: (xs ++ l₂) from rfl,
        List.find?_cons_of_pos _ (by simp [hp])]
      exact h

theorem find?_append_of_none {p : α → Bool} {l₁ : List α} (l₂ : List α)
    (h : ∀ x ∈ l₁, ¬ p x) : (l₁ ++ l₂).find? p = l₂.find? p := by
  induction l₁ with
  | nil => simp
  | cons x xs ih =>
    rw [show (x :: xs ++ l₂) = x :: (xs ++ l₂) from rfl,
      List.find?_cons_of_neg _ (by simpa using h x (List.mem_cons_self x xs))]
    exact ih (fun y hy => h y (List.mem_cons_of_mem x hy))

theorem clean_word_fixed {w : List Char}
    (h : ∀ c ∈ w, c.toNat ≠ 0 ∧ sanitizeKeep c = true) :
    sanitize_text (pyLower (String.mk (pyLowerL w))) = String.mk (pyLowerL w) := by
  have hlow : pyLower (String.mk (pyLowerL w)) = String.mk (pyLowerL w) := by
    simp only [pyLower, pyLowerL_idem]
  rw [hlow]
  apply sanitize_of_clean
  intro c hc
  obtain ⟨c₀, hc₀, rfl⟩ := List.mem_map.mp hc
  obtain ⟨h₀, hk⟩ := h c₀ hc₀
  obtain ⟨hk', h₀'⟩ := toLower_clean hk h₀
  exact ⟨h₀', hk'⟩

theorem pcwe_go_shape (text : List Char) :
    ∀ (es : List Ent) (pos : Nat),
      (∀ e ∈ es, ∀ c ∈ e.text, c ∈ text) →
      ∀ tok ∈ pcwe_go text es pos,
        ∃ w, tok.1 = String.mk (pyLowerL w) ∧ ∀ c ∈ w, c ∈ text := by
  intro es
  induction es with
  | nil =>
    intro pos _ tok h
    simp only [pcwe_go] at h
    split at h
    · obtain ⟨w, hw, hm⟩ := extract_regular_words_shape _ tok h
      exact ⟨w, hw, fun c hc => mem_slice (hm c hc)⟩
    · simp at h
  | cons e rest ih =>
    intro pos hent tok h
    simp only [pcwe_go, List.mem_append] at h
    rcases h with (h | h) | h
    · split at h
      · obtain ⟨w, hw, hm⟩ := extract_regular_words_shape _ tok h
        exact ⟨w, hw, fun c hc => mem_slice (hm c hc)⟩
      · simp at h
    · simp only [List.mem_singleton] at h
      subst h
      exact ⟨e.text, rfl, hent e (List.mem_cons_self _ _) ⟩
    · exact ih e.stop (fun e' he' => hent e' (List.mem_cons_of_mem _ he')) tok h

theorem process_chunk_shape (text : List Char) :
    ∀ tok ∈ process_chunk_with_entities text,
      ∃ w, tok.1 = String.mk (pyLowerL w) ∧ ∀ c ∈ w, c ∈ text := by
  intro tok h
  unfold process_chunk_with_entities at h
  refine pcwe_go_shape text _ 0 ?_ tok h
  intro e he c hc
  exact collectEntities_text text e (sortByStart_mem (remove_overlaps_mem he)) c hc

theorem ewp_chunk_loop_shape (t : List Char) :
    ∀ (fuel i : Nat), ∀ tok ∈ ewp_chunk_loop t fuel i,
      ∃ w, tok.1 = String.mk (pyLowerL w) ∧ ∀ c ∈ w, c ∈ t := by
  intro fuel
  induction fuel with
  | zero => intro i tok h; simp [ewp_chunk_loop] at h
  | succ f ih =>
    intro i tok h
    simp only [ewp_chunk_loop] at h
    split at h
    · rcases List.mem_append.mp h with h | h
      · obtain ⟨w, hw, hm⟩ := process_chunk_shape _ tok h
        exact ⟨w, hw, fun c hc => mem_slice (hm c hc)⟩
      · exact ih (i + 10000) tok h
    · simp at h

/-- Every word field emitted by the tokenizer is already lowercased and
sanitized: re-applying `sanitize_text` after `str.lower` is the identity. -/
theorem ewp_tokens_clean (text : String) :
    ∀ tok ∈ extract_words_with_punctuation text,
      sanitize_text (pyLower tok.1) = tok.1 := by
  intro tok h
  unfold extract_words_with_punctuation at h
  split at h
  · simp at h
  · obtain ⟨w, hw, hm⟩ := ewp_chunk_loop_shape _ _ 0 tok h
    rw [hw]
    exact clean_word_fixed (fun c hc => mem_sanitize_data (hm c hc))

theorem gocw_found {db : DB} {w : String} {r : WordRow}
    (h : db.words.find? (fun x => x.word = sanitize_text (pyLower w)) = some r) :
    get_or_create_word_id db w = (r.id, db) := by
  simp only [get_or_create_word_id]
  rw [h]

theorem gocw_none {db : DB} {w : String}
    (h : db.words.find? (fun x => x.word = sanitize_text (pyLower w)) = none) :
    get_or_create_word_id db w =
      (db.nextWordId,
       { db with
          words := db.words ++ [⟨db.nextWordId, sanitize_text (pyLower w)⟩],
          nextWordId := db.nextWordId + 1 }) := by
  simp only [get_or_create_word_id]
  rw [h]

theorem gocw_find (db : DB) (w : String) :
    (get_or_create_word_id db w).2.words.find?
        (fun x => x.word = sanitize_text (pyLower w)) =
      some ⟨(get_or_create_word_id db w).1, sanitize_text (pyLower w)⟩ := by
  rcases hf : db.words.find? (fun x => x.word = sanitize_text (pyLower w)) with _ | r
  · rw [gocw_none hf]
    have hall : ∀ x ∈ db.words,
        ¬ ((fun x => decide (x.word = sanitize_text (pyLower w))) x = true) := by
      intro x hx
      exact fun hp => (List.find?_eq_none.mp hf x hx) hp
    rw [find?_append_of_none _ hall, List.find?_cons_of_pos _ (by simp)]
  · rw [gocw_found hf]
    have hw : r.word = sanitize_text (pyLower w) := by
      simpa using List.find?_some hf
    rw [hf]
    cases r
    simp_all

theorem gocw_words_ext (db : DB) (w : String) :
    ∃ ext, (get_or_create_word_id db w).2.words = db.words ++ ext := by
  rcases hf : db.words.find? (fun x => x.word = sanitize_text (pyLower w)) with _ | r
  · exact ⟨[⟨db.nextWordId, sanitize_text (pyLower w)⟩], by rw [gocw_none hf]⟩
  · exact ⟨[], by rw [gocw_found hf]; simp⟩

theorem gocw_wordsWF {db : DB} (w : String) (h : wordsWF db) :
    wordsWF (get_or_create_word_id db w).2 := by
  rcases hf : db.words.find? (fun x => x.word = sanitize_text (pyLower w)) with _ | r
  · rw [gocw_none hf]
    obtain ⟨h1, h2, h3⟩ := h
    have hnone : ∀ x ∈ db.words, x.word ≠ sanitize_text (pyLower w) := by
      intro x hx
      have := List.find?_eq_none.mp hf x hx
      simpa using this
    refine ⟨?_, ?_, ?_⟩
    · intro x hx
      rcases List.mem_append.mp hx with hx | hx
      · have := h1 x hx
        simp only []
        omega
      · simp only [List.mem_singleton] at hx
        subst hx
        simp
    · intro x₁ hx₁ x₂ hx₂ he
      rcases List.mem_append.mp hx₁ with hx₁ | hx₁ <;>
        rcases List.mem_append.mp hx₂ with hx₂ | hx₂
      · exact h2 x₁ hx₁ x₂ hx₂ he
      · simp only [List.mem_singleton] at hx₂
        subst hx₂
        exact absurd he (hnone x₁ hx₁)
      · simp only [List.mem_singleton] at hx₁
        subst hx₁
        exact absurd he.symm (hnone x₂ hx₂)
      · simp only [List.mem_singleton] at hx₁ hx₂
        rw [hx₁, hx₂]
    · intro x₁ hx₁ x₂ hx₂ he
      rcases List.mem_append.mp hx₁ with hx₁ | hx₁ <;>
        rcases List.mem_append.mp hx₂ with hx₂ | hx₂
      · exact h3 x₁ hx₁ x₂ hx₂ he
      · simp only [List.mem_singleton] at hx₂
        subst hx₂
        exact absurd he (by have := h1 x₁ hx₁; simp only []; omega)
      · simp only [List.mem_singleton] at hx₁
        subst hx₁
        exact absurd he.symm (by have := h1 x₂ hx₂; simp only []; omega)
      · simp only [List.mem_singleton] at hx₁ hx₂
        rw [hx₁, hx₂]
  · rwa [gocw_found hf]

theorem ensureWords_spec (ws : List String) :
    ∀ db : DB, wordsWF db →
      wordsWF (ensureWords db ws).2 ∧
      (∃ ext, (ensureWords db ws).2.words = db.words ++ ext) ∧
      (∀ w ∈ ws,
        (ensureWords db ws).2.words.find?
            (fun x => x.word = sanitize_text (pyLower w)) =
          some ⟨lookupWordId (ensureWords db ws).1 w,
                sanitize_text (pyLower w)⟩) := by
  induction ws with
  | nil =>
    intro db h
    exact ⟨h, ⟨[], by simp [ensureWords]⟩, by intro w hw; simp at hw⟩
  | cons w ws ih =>
    intro db h
    obtain ⟨ihWF, ⟨ext₂, hext₂⟩, ihfind⟩ :=
      ih (get_or_create_word_id db w).2 (gocw_wordsWF w h)
    obtain ⟨ext₁, hext₁⟩ := gocw_words_ext db w
    refine ⟨ihWF, ⟨ext₁ ++ ext₂, ?_⟩, ?_⟩
    · show (ensureWords (get_or_create_word_id db w).2 ws).2.words =
        db.words ++ (ext₁ ++ ext₂)
      rw [hext₂, hext₁, List.append_assoc]
    · intro w' hw'
      show (ensureWords (get_or_create_word_id db w).2 ws).2.words.find?
          (fun x => x.word = sanitize_text (pyLower w')) =
        some ⟨lookupWordId ((w, (get_or_create_word_id db w).1) ::
                (ensureWords (get_or_create_word_id db w).2 ws).1) w',
              sanitize_text (pyLower w')⟩
      by_cases hww : w' = w
      · subst hww
        have hl : lookupWordId ((w', (get_or_create_word_id db w').1) ::
            (ensureWords (get_or_create_word_id db w').2 ws).1) w' =
            (get_or_create_word_id db w').1 := by
          simp [lookupWordId]
        rw [hl, hext₂]
        exact find?_append_some ext₂ (gocw_find db w')
      · have hw'' : w' ∈ ws := by
          rcases List.mem_cons.mp hw' with hc | hc
          · exact absurd hc hww
          · exact hc
        have hl : lookupWordId ((w, (get_or_create_word_id db w).1) ::
            (ensureWords (get_or_create_word_id db w).2 ws).1) w' =
            lookupWordId (ensureWords (get_or_create_word_id db w).2 ws).1 w' := by
          simp only [lookupWordId]
          rw [List.find?_cons_of_neg _ (by simpa using fun hc => hww hc.symm)]
        rw [hl]
        exact ihfind w' hw''

theorem find?_word_inj {db : DB} (h : wordsWF db) {k₁ k₂ : String} {i : Nat}
    (h₁ : db.words.find? (fun x => x.word = k₁) = some ⟨i, k₁⟩)
    (h₂ : db.words.find? (fun x => x.word = k₂) = some ⟨i, k₂⟩) :
    k₁ = k₂ := by
  have m₁ := List.mem_of_find?_eq_some h₁
  have m₂ := List.mem_of_find?_eq_some h₂
  have := h.2.2 _ m₁ _ m₂ rfl
  exact congrArg WordRow.word this

theorem resolveWordIds_resolved (f : String → Nat) :
    ∀ (wc : List (String × Nat)) (db : DB),
      (∀ p ∈ wc,
        db.words.find? (fun x => x.word = sanitize_text (pyLower p.1)) =
          some ⟨f p.1, sanitize_text (pyLower p.1)⟩) →
      resolveWordIds db wc = (wc.map (fun p => (f p.1, p.2)), db) := by
  intro wc
  induction wc with
  | nil => intro db _; rfl
  | cons p rest ih =>
    intro db h
    simp only [resolveWordIds]
    rw [gocw_found (h p (List.mem_cons_self _ _)),
      ih db (fun q hq => h q (List.mem_cons_of_mem _ hq))]
    simp

theorem upsertWordPaths_append (path_id : Nat) :
    ∀ (bulk : List (Nat × Nat)) (db : DB),
      (bulk.map Prod.fst).Nodup →
      (∀ r ∈ db.wordsPaths, r.pathId = path_id → ¬ r.wordId ∈ bulk.map Prod.fst) →
      (upsertWordPaths db path_id bulk).wordsPaths =
        db.wordsPaths ++ bulk.map (fun wc => ⟨path_id, wc.1, wc.2⟩) := by
  intro bulk
  induction bulk with
  | nil => intro db _ _; simp [upsertWordPaths]
  | cons wc rest ih =>
    intro db hnd hfr
    simp only [upsertWordPaths]
    have hany : db.wordsPaths.any
        (fun r => r.pathId = path_id && r.wordId = wc.1) = false := by
      rw [List.any_eq_false]
      intro r hr
      simp only [Bool.and_eq_true, decide_eq_true_eq, not_and]
      intro hp hw
      exact hfr r hr hp (by rw [hw]; exact List.mem_cons_self _ _)
    have hup : upsertWordPath db path_id wc.1 wc.2 =
        { db with wordsPaths := db.wordsPaths ++ [⟨path_id, wc.1, wc.2⟩] } := by
      unfold upsertWordPath
      rw [hany]
      simp
    rw [hup]
    rw [ih _ (List.Nodup.of_cons hnd) ?_]
    · simp
    · intro r hr hp
      rcases List.mem_append.mp hr with hr | hr
      · intro hm
        exact hfr r hr hp (List.mem_cons_of_mem _ hm)
      · simp only [List.mem_singleton] at hr
        subst hr
        simp only []
        exact (List.nodup_cons.mp (by simpa using hnd)).1
    
theorem rows_find_of_mem (path_id : Nat) (lk cf : String → Nat) :
    ∀ (ws : List String) (w : String), w ∈ ws →
      (∀ w₁ ∈ ws, ∀ w₂ ∈ ws, lk w₁ = lk w₂ → w₁ = w₂) →
      (ws.map (fun x => (⟨path_id, lk x, cf x⟩ : WordPathRow))).find?
          (fun r => r.pathId = path_id && r.wordId = lk w) =
        some ⟨path_id, lk w, cf w⟩ := by
  intro ws
  induction ws with
  | nil => intro w hw _; simp at hw
  | cons x xs ih =>
    intro w hw hinj
    simp only [List.map_cons]
    by_cases hxw : x = w
    · subst hxw
      rw [List.find?_cons_of_pos _ (by simp)]
    · rw [List.find?_cons_of_neg _ ?_]
      · refine ih w ?_ (fun a ha b hb =>
          hinj a (List.mem_cons_of_mem _ ha) b (List.mem_cons_of_mem _ hb))
        rcases List.mem_cons.mp hw with hc | hc
        · exact absurd hc.symm hxw
        · exact hc
      · simp only [Bool.and_eq_true, decide_eq_true_eq, not_and]
        intro _ heq
        exact hxw (hinj x (List.mem_cons_self _ _) w hw heq)

theorem rows_find_of_not_mem (path_id wid : Nat) (lk cf : String → Nat) :
    ∀ ws : List String, (∀ w ∈ ws, lk w ≠ wid) →
      (ws.map (fun x => (⟨path_id, lk x, cf x⟩ : WordPathRow))).find?
          (fun r => r.pathId = path_id && r.wordId = wid) = none := by
  intro ws
  induction ws with
  | nil => intro _; simp
  | cons x xs ih =>
    intro h
    simp only [List.map_cons]
    rw [List.find?_cons_of_neg _ ?_]
    · exact ih (fun w hw => h w (List.mem_cons_of_mem _ hw))
    · simp only [Bool.and_eq_true, decide_eq_true_eq, not_and]
      intro _ heq
      exact h x (List.mem_cons_self _ _) heq

/-- The count law for one `_store_content_pipeline` success path, stated over
its intermediate values (`ws` the distinct token words, `ew` the word-id
resolution, `tts` the stored tuples, `wcs` the counter, `db₂` the store after
the content chunks). -/
theorem pipeline_count_core (db : DB) (tokens : List Tok) (path_id wid : Nat)
    (ws : List String) (hws : ws = pySet (tokens.map (fun t => t.1)))
    (ew : List (String × Nat) × DB) (hew : ew = ensureWords db ws)
    (tts : List TokenTup)
    (htts : tts = tokens.map (fun t =>
      (lookupWordId ew.1 t.1, (none : Option Nat), (none : Option Nat),
       (none : Option Nat))))
    (wcs : List (String × Nat))
    (hwcs : wcs = pyCounter (tokens.map (fun t => t.1)))
    (db₂ : DB) (hdb₂ : db₂ = store_content_chunks ew.2 tts path_id)
    (hWFw : wordsWF db)
    (hFreshWP : ∀ r ∈ db.wordsPaths, r.pathId ≠ path_id)
    (hFreshC : ∀ r ∈ db.contents, r.pathId ≠ path_id)
    (hne : tokens ≠ [])
    (hclean : ∀ t ∈ tokens, sanitize_text (pyLower t.1) = t.1) :
    wordPathCount (store_word_frequencies db₂ path_id wcs) path_id wid =
      ((retrieve_content (store_word_frequencies db₂ path_id wcs)
          path_id).filter (fun t => t.1 = wid)).length := by
  have hlwne : tokens.map (fun t : Tok => t.1) ≠ [] := by
    intro hc
    exact hne (by simpa using hc)
  have hwsne : ws ≠ [] := by
    rw [hws]
    exact pySet_ne_nil hlwne
  have hwsnodup : ws.Nodup := by
    rw [hws]
    exact pySet_nodup _
  have hcleanws : ∀ w ∈ ws, sanitize_text (pyLower w) = w := by
    intro w hw
    rw [hws] at hw
    obtain ⟨t, ht, rfl⟩ := List.mem_map.mp (mem_pySet.mp hw)
    exact hclean t ht
  obtain ⟨hWF2, ⟨ext, hext⟩, hfind⟩ := ensureWords_spec ws db hWFw
  rw [← hew] at hWF2 hext hfind
  have hcs := store_content_chunks_spec ew.2 tts path_id
  have hwords2 : db₂.words = ew.2.words := by
    rw [hdb₂]
    exact hcs.2.2.2.1
  have hwp2 : db₂.wordsPaths = db.wordsPaths := by
    rw [hdb₂, hcs.2.2.2.2.1, hew]
    exact (ensureWords_frame ws db).2.2.2.1
  have hinj : ∀ w₁ ∈ ws, ∀ w₂ ∈ ws,
      lookupWordId ew.1 w₁ = lookupWordId ew.1 w₂ → w₁ = w₂ := by
    intro w₁ h₁ w₂ h₂ heq
    have f₁ := hfind w₁ h₁
    have f₂ := hfind w₂ h₂
    rw [hcleanws w₁ h₁] at f₁
    rw [hcleanws w₂ h₂] at f₂
    rw [heq] at f₁
    exact find?_word_inj hWF2 f₁ f₂
  have hwcs' : wcs = ws.map (fun w =>
      (w, ((tokens.map (fun t : Tok => t.1)).filter (fun x => x = w)).length)) := by
    rw [hwcs]
    unfold pyCounter
    rw [← hws]
  have hwcsne : wcs.isEmpty = false := by
    rw [hwcs']
    cases hw : ws with
    | nil => exact absurd hw hwsne
    | cons x xs => simp
  have hres : resolveWordIds db₂ wcs =
      (wcs.map (fun p => (lookupWordId ew.1 p.1, p.2)), db₂) := by
    apply resolveWordIds_resolved
    intro p hp
    have hpws : p.1 ∈ ws := by
      rw [hwcs'] at hp
      obtain ⟨w, hwmem, rfl⟩ := List.mem_map.mp hp
      exact hwmem
    rw [hwords2]
    exact hfind p.1 hpws
  have hswf : store_word_frequencies db₂ path_id wcs =
      upsertWordPaths db₂ path_id
        (wcs.map (fun p => (lookupWordId ew.1 p.1, p.2))) := by
    unfold store_word_frequencies
    rw [hwcsne, if_neg (by simp), hres]
  have hbulkfst : (wcs.map (fun p => (lookupWordId ew.1 p.1, p.2))).map Prod.fst =
      ws.map (fun w => lookupWordId ew.1 w) := by
    rw [hwcs', List.map_map, List.map_map]
    rfl
  have hnodupbulk :
      ((wcs.map (fun p => (lookupWordId ew.1 p.1, p.2))).map Prod.fst).Nodup := by
    rw [hbulkfst]
    exact List.Nodup.map_on (fun x hx y hy hxy => hinj x hx y hy hxy) hwsnodup
  have hfr₂ : ∀ r ∈ db₂.wordsPaths, r.pathId = path_id →
      ¬ r.wordId ∈
        ((wcs.map (fun p => (lookupWordId ew.1 p.1, p.2))).map Prod.fst) := by
    intro r hr hp
    rw [hwp2] at hr
    exact absurd hp (hFreshWP r hr)
  have hrows := upsertWordPaths_append path_id
    (wcs.map (fun p => (lookupWordId ew.1 p.1, p.2))) db₂ hnodupbulk hfr₂
  have hfinwp : (store_word_frequencies db₂ path_id wcs).wordsPaths =
      db.wordsPaths ++ ws.map (fun w =>
        (⟨path_id, lookupWordId ew.1 w,
          ((tokens.map (fun t : Tok => t.1)).filter
            (fun x => x = w)).length⟩ : WordPathRow)) := by
    rw [hswf, hrows, hwp2]
    congr 1
    rw [hwcs', List.map_map, List.map_map]
    rfl
  have hret : retrieve_content (store_word_frequencies db₂ path_id wcs)
      path_id = tts := by
    rw [retrieve_congr _ db₂ path_id
      (store_word_frequencies_frame db₂ path_id wcs).2.2.1]
    rw [hdb₂]
    apply retrieve_store_roundtrip
    rw [hew, (ensureWords_frame ws db).2.2.1]
    exact List.filter_eq_nil_iff.mpr (fun r hr => by simpa using hFreshC r hr)
  rw [hret]
  have hRHS : ((tts.filter (fun t => t.1 = wid)).length) =
      ((tokens.map (fun t : Tok => t.1)).filter
        (fun w => lookupWordId ew.1 w = wid)).length := by
    rw [htts, ← List.countP_eq_length_filter, ← List.countP_eq_length_filter,
      List.countP_map, List.countP_map]
    rfl
  rw [hRHS]
  unfold wordPathCount
  rw [hfinwp]
  have hold : ∀ r ∈ db.wordsPaths,
      ¬ ((r.pathId = path_id && r.wordId = wid) = true) := by
    intro r hr
    simp only [Bool.and_eq_true, decide_eq_true_eq, not_and]
    intro hp _
    exact (hFreshWP r hr) hp
  rw [find?_append_of_none _ hold]
  by_cases hex : ∃ w ∈ ws, lookupWordId ew.1 w = wid
  · obtain ⟨w, hwmem, hwid⟩ := hex
    subst hwid
    rw [rows_find_of_mem path_id (fun w => lookupWordId ew.1 w)
      (fun w => ((tokens.map (fun t : Tok => t.1)).filter
        (fun x => x = w)).length) ws w hwmem hinj]
    have hflt : (tokens.map (fun t : Tok => t.1)).filter
        (fun x => lookupWordId ew.1 x = lookupWordId ew.1 w) =
        (tokens.map (fun t : Tok => t.1)).filter (fun x => x = w) := by
      apply List.filter_congr
      intro x hx
      have hxws : x ∈ ws := by
        rw [hws]
        exact mem_pySet.mpr hx
      by_cases hxw : x = w
      · subst hxw
        simp
      · have hne' : lookupWordId ew.1 x ≠ lookupWordId ew.1 w :=
          fun hc => hxw (hinj x hxws w hwmem hc)
        simp [hxw, hne']
    rw [hflt]
  · rw [rows_find_of_not_mem path_id wid (fun w => lookupWordId ew.1 w)
      (fun w => ((tokens.map (fun t : Tok => t.1)).filter
        (fun x => x = w)).length) ws
      (fun w hw heq => hex ⟨w, hw, heq⟩)]
    have hflt : (tokens.map (fun t : Tok => t.1)).filter
        (fun x => lookupWordId ew.1 x = wid) = [] := by
      apply List.filter_eq_nil_iff.mpr
      intro x hx
      have hxws : x ∈ ws := by
        rw [hws]
        exact mem_pySet.mpr hx
      simpa using fun hc => hex ⟨x, hxws, hc⟩
    rw [hflt]
    rfl

/-- C6: after `_store_content_pipeline` persists the content tuples and the
word-frequency counter for a fresh `path_id` in a well-formed store, every
`(path_id, word_id)` pair satisfies the count law: the stored
`words_paths.word_count` (0 when no row exists) equals the number of token
tuples retrieved from Content for that path whose first element is
`word_id`. -/
theorem c6_wordpath_count_law (db : DB) (text : String) (path_id : Nat)
    (hWF : dbWF db)
    (hFreshWP : ∀ r ∈ db.wordsPaths, r.pathId ≠ path_id)
    (hFreshC : ∀ r ∈ db.contents, r.pathId ≠ path_id) :
    ∀ word_id : Nat,
      wordPathCount (store_content_pipeline db text path_id) path_id word_id =
        ((retrieve_content (store_content_pipeline db text path_id)
            path_id).filter (fun t => t.1 = word_id)).length := by
  intro wid
  by_cases hemp : (extract_words_with_punctuation text).isEmpty
  · have hdb : store_content_pipeline db text path_id = db := by
      unfold store_content_pipeline
      rw [if_pos hemp]
    rw [hdb]
    have hL : wordPathCount db path_id wid = 0 := by
      unfold wordPathCount
      have hnone : db.wordsPaths.find?
          (fun r => r.pathId = path_id && r.wordId = wid) = none := by
        rw [List.find?_eq_none]
        intro r hr
        simp only [Bool.and_eq_true, decide_eq_true_eq, not_and]
        intro hp _
        exact (hFreshWP r hr) hp
      rw [hnone]
    have hR : retrieve_content db path_id = [] := by
      unfold retrieve_content
      have hfil : db.contents.filter (fun r => r.pathId = path_id) = [] :=
        List.filter_eq_nil_iff.mpr (fun r hr => by simpa using hFreshC r hr)
      rw [hfil]
      rfl
    rw [hL, hR]
    rfl
  · have hne : extract_words_with_punctuation text ≠ [] := by
      intro hc
      exact hemp (by rw [hc]; rfl)
    simp only [store_content_pipeline]
    rw [if_neg hemp]
    exact pipeline_count_core db (extract_words_with_punctuation text)
      path_id wid _ rfl _ rfl _ rfl _ rfl _ rfl hWF.2.2.2.2 hFreshWP hFreshC
      hne (fun t ht => ewp_tokens_clean text t ht)

set_option maxRecDepth 100000 in
/-- Witness for C6 at a concrete store and text. -/
theorem c6_witness :
    dbWF emptyDB ∧
    wordPathCount (store_content_pipeline emptyDB "hi hi x" 1) 1 1 =
      ((retrieve_content (store_content_pipeline emptyDB "hi hi x" 1)
          1).filter (fun t => t.1 = 1)).length :=
  ⟨by decide,
   c6_wordpath_count_law emptyDB "hi hi x" 1 (by decide)
     (by intro r hr; simp [emptyDB] at hr)
     (by intro r hr; simp [emptyDB] at hr) 1⟩

/-- C4 (amended): in a non-duplicate valid-hash run over a well-formed
store, the Path row is inserted with status `Unread` (step 4), and the final
status is `Read` iff the content is an error-free dict whose derived text is
non-empty with a non-empty strip — the condition checked before step 5, not
whether any tokens or Content rows were actually stored. -/
theorem c4_status_promotion (db : DB) (src side : Nat) (fi : FileInfo)
    (r : ContentVal) (pp : Option Nat) (hp : Option String) (fs : FS)
    (hWF : dbWF db)
    (hsent : invalidSentinel fi.hash = false)
    (hdup : (check_duplicate db fi.hash src side).1 = false) :
    (sfcMeta db src side fi hp).2.paths =
      db.paths ++
        [⟨db.nextPathId, (sfcFileInfo fi hp).name.take 500,
          (sfcFileInfo fi hp).path.take 500, (sfcFileInfo fi hp).sizeBytes,
          (sfcFileInfo fi hp).fileType.take 100, "Unread",
          (store_hash db fi.hash src side).1⟩] ∧
    (store_file_complete db src side fi r pp hp fs).2.paths =
      db.paths ++
        [⟨db.nextPathId, (sfcFileInfo fi hp).name.take 500,
          (sfcFileInfo fi hp).path.take 500, (sfcFileInfo fi hp).sizeBytes,
          (sfcFileInfo fi hp).fileType.take 100,
          (if hasReadableContent r then "Read" else "Unread"),
          (store_hash db fi.hash src side).1⟩] ∧
    ((if hasReadableContent r then "Read" else "Unread") = "Read" ↔
      hasReadableContent r = true) := by
  have hpid : (store_hash db fi.hash src side).2.nextPathId = db.nextPathId :=
    (store_hash_frame db fi.hash src side).2.2.2.2.2.1
  have hpaths : (store_hash db fi.hash src side).2.paths = db.paths :=
    (store_hash_frame db fi.hash src side).1
  refine ⟨?_, ?_, ?_⟩
  · rw [sfcMeta_eq]
    simp only []
    rw [hpaths, hpid]
  · have h2 : (store_file_complete db src side fi r pp hp fs).2 =
        sfcSuccessState db src side fi r pp hp := by
      rw [sfc_not_dup_eq db src side fi r pp hp fs hsent hdup]
    have hold : (store_hash db fi.hash src side).2.paths.map
        (fun p => if p.id = db.nextPathId then
          { p with fileStatus := if hasReadableContent r then "Read" else "Unread" }
          else p) = db.paths := by
      rw [hpaths]
      have hid : ∀ p ∈ db.paths,
          (fun p => if p.id = db.nextPathId then
            { p with fileStatus :=
                if hasReadableContent r then "Read" else "Unread" }
            else p) p = p := by
        intro p hpm
        have := hWF.2.2.1 p hpm
        exact if_neg (by omega)
      exact (List.map_congr_left hid).trans (List.map_id _)
    rw [h2, sfcSuccessState_paths, hpid, List.map_append, hold]
    simp
  · cases hrc : hasReadableContent r <;> simp [hrc]

set_option maxRecDepth 100000 in
/-- Counterexample to C4 as stated: for the derived text `"%%%"` (non-empty,
non-empty strip, but yielding no tokens) the run ends with the Path promoted
to `Read` while no Content row and no WordPath row was stored — step 6's
storage did not execute, yet the status was still promoted. -/
theorem c4_counterexample :
    (store_file_complete emptyDB 1 1 fiW
        (.someDict false none none "%%%") none none fs1).1.result =
      StorageResult.success ∧
    ((store_file_complete emptyDB 1 1 fiW
        (.someDict false none none "%%%") none none fs1).2.paths.map
      (fun p => p.fileStatus)) = ["Read"] ∧
    (store_file_complete emptyDB 1 1 fiW
        (.someDict false none none "%%%") none none fs1).2.contents = [] ∧
    (store_file_complete emptyDB 1 1 fiW
        (.someDict false none none "%%%") none none fs1).2.wordsPaths = [] := by
  decide

set_option maxRecDepth 100000 in
/-- Witness for C4 at a concrete run. -/
theorem c4_witness :
    dbWF emptyDB ∧ invalidSentinel fiW.hash = false ∧
    (check_duplicate emptyDB fiW.hash 1 1).1 = false ∧
    ((sfcMeta emptyDB 1 1 fiW none).2.paths =
      emptyDB.paths ++
        [⟨emptyDB.nextPathId, (sfcFileInfo fiW none).name.take 500,
          (sfcFileInfo fiW none).path.take 500, (sfcFileInfo fiW none).sizeBytes,
          (sfcFileInfo fiW none).fileType.take 100, "Unread",
          (store_hash emptyDB fiW.hash 1 1).1⟩] ∧
    (store_file_complete emptyDB 1 1 fiW
        (.someDict false none none "hi") none none fs1).2.paths =
      emptyDB.paths ++
        [⟨emptyDB.nextPathId, (sfcFileInfo fiW none).name.take 500,
          (sfcFileInfo fiW none).path.take 500, (sfcFileInfo fiW none).sizeBytes,
          (sfcFileInfo fiW none).fileType.take 100,
          (if hasReadableContent (.someDict false none none "hi")
            then "Read" else "Unread"),
          (store_hash emptyDB fiW.hash 1 1).1⟩] ∧
    ((if hasReadableContent (.someDict false none none "hi")
        then "Read" else "Unread") = "Read" ↔
      hasReadableContent (.someDict false none none "hi") = true)) :=
  ⟨by decide, by decide, by decide,
   c4_status_promotion emptyDB 1 1 fiW (.someDict false none none "hi")
     none none fs1 (by decide) (by decide) (by decide)⟩

/-- C2 (amended): `check_duplicate` short-circuits to `(False, None)` exactly
on the four sentinel digests (`""`, `"N/A"`, `"SKIPPED_LARGE_FILE"`,
`"ERROR"`) — no length check is performed — and otherwise answers from the
store: `(False, None)` when no Hash row matches the triple or the matching
Hash row is an orphan, and `(True, path_id)` of the newest referencing Path
when one exists. -/
theorem c2_check_duplicate_characterization (db : DB) (d : String)
    (src side : Nat) :
    (invalidSentinel d = true → check_duplicate db d src side = (false, none)) ∧
    (invalidSentinel d = false → findHashRow db d src side = none →
      check_duplicate db d src side = (false, none)) ∧
    (∀ h₀, invalidSentinel d = false → findHashRow db d src side = some h₀ →
      newestPathFor db h₀.id = none →
      check_duplicate db d src side = (false, none)) ∧
    (∀ h₀ q, invalidSentinel d = false →
      findHashRow db d src side = some h₀ → newestPathFor db h₀.id = some q →
      check_duplicate db d src side = (true, some q.id) ∧
        q ∈ db.paths ∧ q.hashId = h₀.id ∧
        ∀ p ∈ db.paths, p.hashId = h₀.id → p.id ≤ q.id) := by
  refine ⟨?_, ?_, ?_, ?_⟩
  · intro hs
    unfold check_duplicate
    rw [hs]
    simp
  · intro hs hfind
    rw [check_duplicate_eq db d src side hs, hfind]
  · intro h₀ hs hfind hnew
    rw [check_duplicate_eq db d src side hs, hfind]
    simp only [hnew]
  · intro h₀ q hs hfind hnew
    obtain ⟨hqmem, hqhash, hqmax⟩ := (newestPathFor_spec db h₀.id).2 q hnew
    exact ⟨check_duplicate_true_of db d src side hs h₀ q hfind hnew,
      hqmem, hqhash, hqmax⟩

/-- Counterexample to C2 as stated: a stored digest of length 3 (≠ 64) is
not short-circuited — `check_duplicate` still reports a duplicate for it,
because the code checks only the sentinel list and never the 64-character
length (`validate_hash` is never called). -/
theorem c2_counterexample :
    ("abc" : String).length ≠ 64 ∧
    check_duplicate dbShort "abc" 1 1 = (true, some 1) := by
  decide

/-- Witness for C2 at a concrete store. -/
theorem c2_witness :
    invalidSentinel "abc" = false ∧
    findHashRow dbShort "abc" 1 1 = some ⟨1, "abc", 1, 1⟩ ∧
    newestPathFor dbShort 1 = some ⟨1, "f", "/f", 0, "FILE", "Unread", 1⟩ ∧
    (check_duplicate dbShort "abc" 1 1 =
        (true, some (⟨1, "f", "/f", 0, "FILE", "Unread", 1⟩ : PathRow).id) ∧
      (⟨1, "f", "/f", 0, "FILE", "Unread", 1⟩ : PathRow) ∈ dbShort.paths ∧
      (⟨1, "f", "/f", 0, "FILE", "Unread", 1⟩ : PathRow).hashId =
        (⟨1, "abc", 1, 1⟩ : HashRow).id ∧
      ∀ p ∈ dbShort.paths, p.hashId = (⟨1, "abc", 1, 1⟩ : HashRow).id →
        p.id ≤ (⟨1, "f", "/f", 0, "FILE", "Unread", 1⟩ : PathRow).id) :=
  ⟨by decide, by decide, by decide,
   (c2_check_duplicate_characterization dbShort "abc" 1 1).2.2.2
     ⟨1, "abc", 1, 1⟩ ⟨1, "f", "/f", 0, "FILE", "Unread", 1⟩
     (by decide) (by decide) (by decide)⟩

/-- C3 (amended): when `file_info.hash` is a sentinel and the path is
readable, step 1 recomputes the digest from `file_info.path` and the run
proceeds exactly as if the recomputed digest had been supplied — the
pipeline applies no 100 MiB limit of its own (the limit lives in
`get_standardized_metadata`, which assigns the sentinel that triggers this
recomputation). -/
theorem c3_hash_recompute (db : DB) (src side : Nat) (fi : FileInfo)
    (r : ContentVal) (pp : Option Nat) (hp : Option String) (fs : FS)
    (d : String)
    (hsent : invalidSentinel fi.hash = true) (hpath : fi.path ≠ "")
    (hfs : fs fi.path = some d) (hd : invalidSentinel d = false) :
    store_file_complete db src side fi r pp hp fs =
      store_file_complete db src side { fi with hash := d } r pp hp fs := by
  unfold store_file_complete
  simp only [hsent, if_true, hd, Bool.false_eq_true, if_false]
  rw [if_pos hpath, hfs]

set_option maxRecDepth 100000 in
/-- Counterexample to C3 as stated: a 200 MiB file whose scan assigned the
digest `"SKIPPED_LARGE_FILE"` does not yield `INVALID_HASH` —
`store_file_complete` recomputes a digest from the path (with no size
check) and the run succeeds, inserting Hash and Path rows. -/
theorem c3_counterexample :
    metadataFileHash fiBig.sizeBytes fs1 fiBig.path = "SKIPPED_LARGE_FILE" ∧
    fiBig.sizeBytes > 100 * 1024 * 1024 ∧
    fiBig.hash = "SKIPPED_LARGE_FILE" ∧
    (store_file_complete emptyDB 1 1 fiBig .notDict none none fs1).1.result =
      StorageResult.success ∧
    ((store_file_complete emptyDB 1 1 fiBig .notDict none none fs1).2.hashs.map
      (fun h => h.hash)) = [d64] := by
  decide

set_option maxRecDepth 100000 in
/-- Witness for C3 at a concrete file. -/
theorem c3_witness :
    invalidSentinel fiBig.hash = true ∧ fiBig.path ≠ "" ∧
    fs1 fiBig.path = some d64 ∧ invalidSentinel d64 = false ∧
    store_file_complete emptyDB 1 1 fiBig .notDict none none fs1 =
      store_file_complete emptyDB 1 1 { fiBig with hash := d64 }
        .notDict none none fs1 :=
  ⟨by decide, by decide, by decide, by decide,
   c3_hash_recompute emptyDB 1 1 fiBig .notDict none none fs1 d64
     (by decide) (by decide) (by decide) (by decide)⟩

set_option maxRecDepth 100000 in
/-- C7 (amended): tokenizing the exact text
`"Contact: a@b.com, see https://x.y/z"` yields the word fields
`["contact", "a@b.com", "see", "https://x.y/z"]` — the email address and
the URL survive as single (lowercased) tokens, not split at the
punctuation inside them. -/
theorem c7_entity_tokens :
    (extract_words_with_punctuation "Contact: a@b.com, see https://x.y/z").map
      (fun t => t.1) = ["contact", "a@b.com", "see", "https://x.y/z"] := by
  decide

set_option maxRecDepth 100000 in
/-- Counterexample to C7 as stated for *any* text containing the substring:
appending one letter extends the greedy URL match, so the text still
contains `"Contact: a@b.com, see https://x.y/z"` as a substring but the
token list holds `"https://x.y/zq"` and no token `"https://x.y/z"`. -/
theorem c7_counterexample :
    "Contact: a@b.com, see https://x.y/zq" =
      "Contact: a@b.com, see https://x.y/z" ++ "q" ∧
    ¬ ("https://x.y/z" ∈ (extract_words_with_punctuation
        "Contact: a@b.com, see https://x.y/zq").map (fun t => t.1)) ∧
    "https://x.y/zq" ∈ (extract_words_with_punctuation
        "Contact: a@b.com, see https://x.y/zq").map (fun t => t.1) := by
  decide

/-- C8: what `_calculate_file_priority` actually computes.  The source reads
`if size > 10 MiB: priority += 2 elif size > 50 MiB: priority += 3`, so the
`elif` is dead (any size over 50 MiB already satisfies the first guard): a
60 MiB `.txt` file gets base 1 + 2 = 3, never the documented 1 + 3; the
result is capped at 10. -/
theorem c8_priority_dead_branch :
    calculate_file_priority ".txt" (60 * 1024 * 1024) = 1 + 2 ∧
    calculate_file_priority ".txt" (60 * 1024 * 1024) ≠ 1 + 3 ∧
    calculate_file_priority ".txt" (11 * 1024 * 1024) = 1 + 2 ∧
    calculate_file_priority ".txt" (5 * 1024 * 1024) = 1 ∧
    calculate_file_priority ".zip" (60 * 1024 * 1024) = 10 := by
  decide

/-- C9 (amended): `store_title` with a non-empty word list and a truthy
`parent_path_id` always inserts a row with status `Branch`, but its parent
title reference is the id of the parent path's Title row only when one
exists — when the parent path has no Title row the `Branch` row is inserted
with a NULL reference, violating the stated invariant. -/
theorem c9_branch_title (db : DB) (word_ids : List Nat) (path_id parent : Nat)
    (hne : word_ids.isEmpty = false) (hpar : parent ≠ 0) :
    (store_title db word_ids path_id (some parent)).titles =
      db.titles ++
        [⟨db.nextTitleId, zlib_compress (pickle_dumps_ids word_ids), "Branch",
          (db.titles.find? (fun t => t.pathId = parent)).map (fun t => t.id),
          path_id⟩] ∧
    (db.titles.find? (fun t => t.pathId = parent) = none →
      ∃ x ∈ (store_title db word_ids path_id (some parent)).titles,
        x.titleStatus = "Branch" ∧ x.titleContentId = none) := by
  have htru : pyTruthyOpt (some parent) = true := by
    simp [pyTruthyOpt, hpar]
  have h1 : (store_title db word_ids path_id (some parent)).titles =
      db.titles ++
        [⟨db.nextTitleId, zlib_compress (pickle_dumps_ids word_ids), "Branch",
          (db.titles.find? (fun t => t.pathId = parent)).map (fun t => t.id),
          path_id⟩] := by
    simp only [store_title, hne, Bool.false_eq_true, if_false, htru, if_true,
      Option.getD_some]
  refine ⟨h1, ?_⟩
  intro hnone
  rw [h1, hnone]
  exact ⟨⟨db.nextTitleId, zlib_compress (pickle_dumps_ids word_ids), "Branch",
      none, path_id⟩,
    List.mem_append_right _ (List.mem_singleton.mpr rfl), rfl, rfl⟩

/-- Counterexample to C9 as stated: storing a title for path 2 under parent
path 1 in a store where path 1 has no Title row inserts exactly one Title
row, with status `Branch` and a NULL parent title reference. -/
theorem c9_counterexample :
    ((store_title emptyDB [7] 2 (some 1)).titles.map
      (fun t => (t.titleStatus, t.titleContentId))) = [("Branch", none)] := by
  decide

/-- Witness for C9 at a store where the parent path does own a title. -/
theorem c9_witness :
    ([5] : List Nat).isEmpty = false ∧ (1 : Nat) ≠ 0 ∧
    ((store_title dbTitled [5] 2 (some 1)).titles =
      dbTitled.titles ++
        [⟨dbTitled.nextTitleId, zlib_compress (pickle_dumps_ids [5]), "Branch",
          (dbTitled.titles.find? (fun t => t.pathId = 1)).map (fun t => t.id),
          2⟩] ∧
    (dbTitled.titles.find? (fun t => t.pathId = 1) = none →
      ∃ x ∈ (store_title dbTitled [5] 2 (some 1)).titles,
        x.titleStatus = "Branch" ∧ x.titleContentId = none)) :=
  ⟨by decide, by decide, c9_branch_title dbTitled [5] 2 1 (by decide) (by decide)⟩

/-- C10: tokenization is applied independently to successive 10,000-character
slices of the sanitized text — `extract_words_with_punctuation` equals the
concatenation of the per-chunk tokenizations, so no token or entity match
ever spans a chunk boundary. -/
theorem c10_chunked_tokenization (text : String) (h : text ≠ "") :
    extract_words_with_punctuation text =
      ((chunksOf 10000 (sanitize_text text).data).map
        process_chunk_with_entities).flatten := by
  unfold extract_words_with_punctuation
  rw [if_neg h]
  have := ewp_chunk_loop_eq (sanitize_text text).data
    ((sanitize_text text).data.length + 1) 0 (by omega)
  rw [this, List.drop_zero]

set_option maxRecDepth 100000 in
/-- Witness for C10 at a concrete text longer than one chunk would need. -/
theorem c10_witness :
    ("hi there" : String) ≠ "" ∧
    extract_words_with_punctuation "hi there" =
      ((chunksOf 10000 (sanitize_text "hi there").data).map
        process_chunk_with_entities).flatten :=
  ⟨by decide, c10_chunked_tokenization "hi there" (by decide)⟩

end RederInfo
